import Mathlib

/-!
Shallow embedding of the Trias incremental text classifier
(`src/trias.mjs`, `src/prediction.mjs`, `src/training.mjs`).

Modelling conventions, used throughout:

* A JavaScript `Map` is modelled as its entry list in insertion order,
  `List (κ × β)`; an entry list that models an actual `Map` has pairwise
  distinct keys.  `get`/`set`/`has`/`delete` are `mGet`/`mSet`/`mHas`/`mDel`.
* A JavaScript `Set` is modelled as its element list.
* JavaScript numbers that hold counts are modelled as `Nat` (or `Int` where
  the code subtracts), and floating-point scores as real numbers `ℝ`.
  Where `NaN` can arise, scores are `Option ℝ` (`JSNum`), `none` being `NaN`.
  Decimal literals such as `1.2` stand for the corresponding double literals.
* JavaScript `undefined` from a missing lookup is `Option.none`; the frequent
  `x || d` idiom on numbers is `jsOr`, which also maps a present `0` to `d`.
-/

namespace Trias

/-- JS `Map.prototype.get`, over the entry list of the map. -/
def mGet {κ β : Type} [BEq κ] (l : List (κ × β)) (k : κ) : Option β :=
  List.lookup k l

/-- JS `map.get(k)` with a `?? d`-style default for an absent key. -/
def mGetD {κ β : Type} [BEq κ] (l : List (κ × β)) (k : κ) (d : β) : β :=
  (mGet l k).getD d

/-- JS `Map.prototype.has`. -/
def mHas {κ β : Type} [BEq κ] (l : List (κ × β)) (k : κ) : Bool :=
  (mGet l k).isSome

/-- JS `Map.prototype.set`: overwrite in place when the key is present
(keeping its position), append a new entry otherwise. -/
def mSet {κ β : Type} [BEq κ] (l : List (κ × β)) (k : κ) (v : β) : List (κ × β) :=
  if mHas l k then l.map (fun p => if p.1 == k then (p.1, v) else p) else l ++ [(k, v)]

/-- JS `Map.prototype.delete`. -/
def mDel {κ β : Type} [BEq κ] (l : List (κ × β)) (k : κ) : List (κ × β) :=
  l.filter (fun p => !(p.1 == k))

/-- JS `x || d` on a possibly-`undefined` number: `undefined` and `0` are
falsy, any other number is returned unchanged. -/
def jsOr {β : Type} [Zero β] [DecidableEq β] (x : Option β) (d : β) : β :=
  match x with
  | none => d
  | some v => if v = 0 then d else v

/-!
### Lexical pipeline

`chant` (src/training.mjs lines 14 to 28): tokenize and stem the text, drop
tokens that are excluded or of length at most 1, then emit every n-gram of
length `1..n` over the whole filtered token list — the outer loop runs over
the n-gram length `i`, the inner loop over the start offset `j`.
-/

/-- `chant` from src/training.mjs.  The stemmer's `tokenizeAndStem` is the
external lexical collaborator, passed as a function. -/
def chant (tokenizeAndStem : String → List String) (excludes : List String)
    (n : Nat) (text : String) : List String :=
  let tokens := (tokenizeAndStem text).filter fun t =>
    !excludes.contains t && decide (1 < t.length)
  (List.range' 1 n).flatMap fun i =>
    (List.range (tokens.length + 1 - i)).map fun j =>
      " ".intercalate ((tokens.drop j).take i)

/-- The window list of length-`i` n-grams of `chant`, as generated by the
inner loop (`for j in 0 .. tokens.length - i`). -/
def windows (i : Nat) (tokens : List String) : List (List String) :=
  (List.range (tokens.length + 1 - i)).map fun j => (tokens.drop j).take i

/-- Structural recharacterization of `windows` used to state the amended C9:
slide a window of width `i` over the list, one position at a time. -/
def windowsRec (i : Nat) : List String → List (List String)
  | [] => if i = 0 then [[]] else []
  | t :: ts => if i ≤ (t :: ts).length then (t :: ts).take i :: windowsRec i ts else []

/-- Modelled from the spec (section 4.1): the run-based n-gram description —
"for each contiguous run of filtered stems, all sub-sequences of length 1..N,
in left-to-right, increasing-length order", where a stem of length ≤ 1 or an
excluded stem breaks the run.  This is the comparison point for C9; `chant`
above is the code's actual behavior. -/
def splitRuns {α : Type} (keep : α → Bool) : List α → List (List α)
  | [] => []
  | a :: rest =>
    let rs := splitRuns keep rest
    if keep a then
      match rest, rs with
      | b :: _, r :: rs' => if keep b then (a :: r) :: rs' else [a] :: rs
      | _, _ => [a] :: rs
    else rs

/-- Modelled from the spec (section 4.1): n-grams generated separately inside
each contiguous run of surviving stems, never across a removed stem. -/
def chantRuns (tokenizeAndStem : String → List String) (excludes : List String)
    (n : Nat) (text : String) : List String :=
  let keep : String → Bool := fun t => !excludes.contains t && decide (1 < t.length)
  let runs := splitRuns keep (tokenizeAndStem text)
  runs.flatMap fun run =>
    (List.range' 1 n).flatMap fun i => (windows i run).map (" ".intercalate ·)

/-- Concrete stemmer used by the C9 counterexample: the text stems to
`["aa", "xx", "bb"]`. -/
def tokABB : String → List String := fun _ => ["aa", "xx", "bb"]

/-!
### Eviction: per-category fairness correction of `purge`

`Trias.purge`, step 5 ("Apply category constraints"), src/trias.mjs lines
696 to 713.  For each category whose rebuilt occurrence total exceeds
`targetCount * 1.2`, the code sorts the category's term-table entries
ASCENDING by count, then repeatedly `pop()`s — i.e. takes the LAST,
highest-count entry — deletes that key from the table, and only afterwards
reads the freshly deleted key back (`freqMap.get(omenIdx) || 0`, always `0`)
to decrement the category's occurrence counter.
-/

/-- `[...freqMap.entries()].sort((a, b) => a[1] - b[1])`: stable ascending
sort of the entry array by per-term count. -/
def sortByCountAsc (l : List (Nat × Nat)) : List (Nat × Nat) :=
  l.insertionSort fun a b => a.2 ≤ b.2

/-- The trim loop `for (let i = 0; i < toRemove && sorted.length; i++)`.
`popped` is the ascending-sorted entry array in pop order (reversed); each
iteration deletes the popped key and then subtracts the value found for that
key AFTER the deletion. -/
def trimLoop : Nat → List (Nat × Nat) → List (Nat × Nat) × Int → List (Nat × Nat) × Int
  | 0, _, st => st
  | _ + 1, [], st => st
  | toRemove + 1, (omenIdx, _) :: popped, (freqMap, count) =>
    let freqMap' := mDel freqMap omenIdx
    let count' := count - (((mGet freqMap' omenIdx).getD 0 : Nat) : Int)
    trimLoop toRemove popped (freqMap', count')

/-- One category's pass of `purge` step 5: trim when the retained occurrence
total exceeds `targetCount * 1.2` (20 percent tolerance), removing
`Math.ceil(currentCount - targetCount)` entries (an integer difference, so the
ceiling is the identity). -/
def applyCategoryConstraint (targetCount : Nat) (freqMap : List (Nat × Nat))
    (currentCount : Int) : List (Nat × Nat) × Int :=
  if (currentCount : ℚ) > (targetCount : ℚ) * 1.2 then
    let toRemove := (currentCount - (targetCount : Int)).toNat
    trimLoop toRemove (sortByCountAsc freqMap).reverse (freqMap, currentCount)
  else (freqMap, currentCount)

/-- Sum of the per-term counts remaining in a category's term table. -/
def tableTotal (l : List (Nat × Nat)) : Int :=
  (l.map fun p => (p.2 : Int)).sum

/-!
### Output shaping: `norm` (src/prediction.mjs lines 11 to 66)

`norm` maps stems to their best surface variant, optionally capitalizes,
sorts by score descending (JS stable sort with comparator
`(a, b) => b.score - a.score`), applies either the adaptive cutoff
(`options.limit`) or the exact count (`options.amount`), and renders in the
requested output format.  The score arithmetic is kept abstract in
`JSNumberOps` so that one embedding covers exact rational scores, real
scores, and NaN-carrying scores.
-/

/-- Score arithmetic and comparisons used by the output shaping.
`ltb a b` is JS `a < b` (false when an operand is NaN); `sortKeep a b` states
that the stable sort comparator `(a, b) => b.score - a.score` does NOT demand
swapping, i.e. `!(b - a > 0)`, which for numbers is `b ≤ a` and holds
vacuously when the comparator value is NaN. -/
class JSNumberOps (α : Type) where
  zero : α
  sub : α → α → α
  mul : α → α → α
  ratio15 : α
  ratio80 : α
  ltb : α → α → Bool
  sortKeep : α → α → Bool

instance : JSNumberOps ℚ where
  zero := 0
  sub := Sub.sub
  mul := Mul.mul
  ratio15 := 0.15
  ratio80 := 0.8
  ltb a b := decide (a < b)
  sortKeep a b := decide (b ≤ a)

noncomputable instance : JSNumberOps ℝ where
  zero := 0
  sub := Sub.sub
  mul := Mul.mul
  ratio15 := 0.15
  ratio80 := 0.8
  ltb a b := decide (a < b)
  sortKeep a b := decide (b ≤ a)

/-- A JS floating-point value that may be NaN: `none` is NaN, `some x` a
finite value (signed infinities do not arise in the embedded code paths). -/
def JSNum : Type := Option ℝ

/-- JS addition with NaN propagation. -/
def jadd : JSNum → JSNum → JSNum
  | some a, some b => some (a + b)
  | _, _ => none

/-- JS subtraction with NaN propagation. -/
def jsub : JSNum → JSNum → JSNum
  | some a, some b => some (a - b)
  | _, _ => none

/-- JS multiplication with NaN propagation (`undefined * x` is also NaN). -/
def jmul : JSNum → JSNum → JSNum
  | some a, some b => some (a * b)
  | _, _ => none

noncomputable instance : JSNumberOps JSNum where
  zero := some 0
  sub := jsub
  mul := jmul
  ratio15 := some 0.15
  ratio80 := some 0.8
  ltb a b := match a, b with
    | some x, some y => decide (x < y)
    | _, _ => false
  sortKeep a b := match a, b with
    | some x, some y => decide (y ≤ x)
    | _, _ => true

/-- JS truthiness of a possibly-undefined count option (`if (options.limit)`,
`else if (options.amount)`): `undefined` and `0` are falsy. -/
def jsTruthy (x : Option Nat) : Bool :=
  !(x.getD 0 == 0)

/-- `result.category.charAt(0).toUpperCase() + result.category.slice(1)`. -/
def capFirst (s : String) : String :=
  match s.data with
  | [] => s
  | c :: cs => String.mk (c.toUpper :: cs)

/-- Output format selector (`options.as`). -/
inductive OutFormat where
  | asString : OutFormat
  | asArray : OutFormat
  | asObjects : OutFormat
deriving DecidableEq

/-- The options object consumed by `norm`; absent fields are `none`. -/
structure NormOptions where
  as : OutFormat
  amount : Option Nat
  limit : Option Nat
  capitalize : Option Bool

/-- The rendered result of `norm`. -/
inductive NormOutput (α : Type) where
  | strOut : String → NormOutput α
  | arrOut : List String → NormOutput α
  | objOut : List (String × α) → NormOutput α
deriving DecidableEq

/-- The JS stable sort `results.sort((a, b) => b.score - a.score)`:
score-descending, insertion-order-stable on ties (and order-preserving where
the comparator value is NaN). -/
def sortJS {α : Type} [JSNumberOps α] (l : List (String × α)) : List (String × α) :=
  l.insertionSort fun a b => JSNumberOps.sortKeep a.2 b.2 = true

/-- The cutoff condition of the adaptive-limit loop at position `i`:
`results[i].score - results[i + 1].score > results[i].score * 0.15` or
`results[i + 1].score < results[0].score * 0.8`. -/
def cutCond {α : Type} [JSNumberOps α] (sorted : List (String × α)) (i : Nat) : Bool :=
  let scoreAt : Nat → α := fun j => (sorted.getD j ("", JSNumberOps.zero)).2
  JSNumberOps.ltb (JSNumberOps.mul (scoreAt i) JSNumberOps.ratio15)
      (JSNumberOps.sub (scoreAt i) (scoreAt (i + 1))) ||
    JSNumberOps.ltb (scoreAt (i + 1)) (JSNumberOps.mul (scoreAt 0) JSNumberOps.ratio80)

/-- The adaptive-limit loop: starting from `cutoffIndex = limit`, scan up to
`fuel` positions from `i`, and on the first position satisfying `cond` set
`cutoffIndex = i + 1` and break. -/
def cutoffScan (cond : Nat → Bool) (limit : Nat) : Nat → Nat → Nat
  | _, 0 => limit
  | i, fuel + 1 => if cond i then i + 1 else cutoffScan cond limit (i + 1) fuel

/-- The list handed to the cutoff and count logic of `norm`: categories mapped
through `bestVariantFn`, optionally capitalized, then stably sorted by score
descending. -/
def preppedSorted {α : Type} [JSNumberOps α] (options : NormOptions)
    (bestVariantFn : String → String) (capitalizeDefault : Bool)
    (results : List (String × α)) : List (String × α) :=
  let capitalize := options.capitalize.getD capitalizeDefault
  let mapped := results.map fun r => (bestVariantFn r.1, r.2)
  let mapped := if capitalize then mapped.map (fun r => (capFirst r.1, r.2)) else mapped
  sortJS mapped

/-- `norm` up to (but excluding) the final `switch (options.as)`: the shaped
result list. -/
def normShaped {α : Type} [JSNumberOps α] (options : NormOptions)
    (bestVariantFn : String → String) (capitalizeDefault : Bool)
    (results : List (String × α)) : List (String × α) :=
  if results.isEmpty then results
  else
    let sorted := preppedSorted options bestVariantFn capitalizeDefault results
    if jsTruthy options.limit then
      let limit := options.limit.getD 0
      let fuel := min (sorted.length - 1) (limit - 1)
      let cutoffIndex := cutoffScan (cutCond sorted) limit 0 fuel
      sorted.take (max 1 cutoffIndex)
    else if jsTruthy options.amount then
      sorted.take (options.amount.getD 0)
    else sorted

/-- `norm` (src/prediction.mjs): shaped results rendered in the requested
format (for an empty input list every shaping step is the identity, so the
early-return branch of the source collapses to the same expression). -/
def norm {α : Type} [JSNumberOps α] (options : NormOptions)
    (bestVariantFn : String → String) (capitalizeDefault : Bool)
    (results : List (String × α)) : NormOutput α :=
  let shaped := normShaped options bestVariantFn capitalizeDefault results
  match options.as with
  | .asArray => .arrOut (shaped.map Prod.fst)
  | .asObjects => .objOut shaped
  | .asString => .strOut (", ".intercalate (shaped.map Prod.fst))

/-- Declarative form of the adaptive cutoff index: `i + 1` for the first
scanned position `i` satisfying the cutoff condition, `limit` when no scanned
position satisfies it. -/
def cutoffDeclarative {α : Type} [JSNumberOps α] (sorted : List (String × α))
    (limit : Nat) : Nat :=
  match (List.range (min (sorted.length - 1) (limit - 1))).find? (cutCond sorted) with
  | some i => i + 1
  | none => limit

/-!
### Model state

The mutable state of a `Trias` instance (src/trias.mjs constructor, lines
37 to 65) plus the configuration read by training and prediction.  The
stemmer is the external lexical collaborator, modelled as opaque
deterministic functions.
-/

/-- A gravitational group (`Trias.addGravitationalGroups`): stemmed member
set and a strength derived from its size. -/
structure GravGroup where
  members : List String
  strength : ℝ

/-- The ensemble weight configuration.  The constructor builds it with
`Object.assign` of the defaults below with user overrides, so the seven
algorithm weights and `gravity` are always present; `gravitationalGroups` is
NOT among the defaults and is therefore `undefined` (`none`) unless a user
override supplies it — the boost code nevertheless reads it. -/
structure Weights where
  prior : ℝ
  correlation : ℝ
  tfidf : ℝ
  missingOmensPenalty : ℝ
  crossEntropy : ℝ
  jaccard : ℝ
  cosine : ℝ
  gravity : ℝ
  gravitationalGroups : Option ℝ

/-- The default weights of the `Trias` constructor. -/
noncomputable def defaultWeights : Weights where
  prior := 0.01
  correlation := 0
  tfidf := 0
  missingOmensPenalty := 0
  crossEntropy := 1
  jaccard := 0.5
  cosine := 0.5
  gravity := 0.5
  gravitationalGroups := none

/-- The model state of a `Trias` instance.  Arrays indexed by category id
(`divinerDocCount`, `omenCount`, `omenFrequencies`) or term id
(`omenDocFreq`) are lists; out-of-range JS indexing yields `undefined`,
modelled by `List.getD` with the default noted at each use site. -/
structure Model where
  tokenizeAndStem : String → List String
  stem : String → String
  n : Nat
  weightExponent : Nat
  weights : Weights
  capitalize : Bool
  excludes : List String
  categoryStemToId : List (String × Nat)
  categoryVariations : List (String × List (String × Nat))
  categoryRelations : List (String × List (String × Nat))
  divinerGroups : List String
  divinerDocCount : List Nat
  omenCount : List Nat
  omenFrequencies : List (List (Nat × Nat))
  omenMapping : List (String × Nat)
  omens : List String
  omenDocFreq : List Nat
  totalDocuments : Nat
  gravitationalGroups : List (String × GravGroup)

/-- `chant(text, context)`: the lexical pipeline applied with the model's
stemmer, exclusion set and n-gram bound. -/
def Model.chantText (m : Model) (text : String) : List String :=
  chant m.tokenizeAndStem m.excludes m.n text

/-- `Trias.bestVariant`: the surface variant of a category stem with the
highest observed count (first strict maximum in insertion order), or the stem
itself when the category has no variation map.  (A category created by
training always has a non-empty variation map; the stem also stands in for
the `null` the source returns on the vacuous empty-map case.) -/
def bestVariant (m : Model) (categoryStem : String) : String :=
  match mGet m.categoryVariations categoryStem with
  | none => categoryStem
  | some variationCounts =>
    let best := variationCounts.foldl (fun acc p =>
      match acc with
      | none => some p
      | some q => if p.2 > q.2 then some p else acc) none
    match best with
    | some q => q.1
    | none => categoryStem

/-- The running maximum of the JS pattern
`let maxScore = -Infinity; ... if (x > maxScore) maxScore = x;`
(`none` plays the role of the initial `-Infinity`). -/
noncomputable def runningMax (l : List ℝ) : Option ℝ :=
  l.foldl (fun acc x =>
    match acc with
    | none => some x
    | some m => if x > m then some x else some m) none

/-!
### Weighted multi-text prediction

`predictWeightedText` (src/prediction.mjs lines 391 to 465).
-/

/-- The accumulated weighted term-frequency map: for each input text, every
occurrence of every known term adds `Math.pow(weight, weightExponent)`. -/
noncomputable def weightedIdFreq (m : Model) (inputObj : List (String × ℝ)) :
    List (Nat × ℝ) :=
  inputObj.foldl (fun idFreq p =>
    (m.chantText p.1).foldl (fun idFreq omen =>
      match mGet m.omenMapping omen with
      | none => idFreq
      | some omenId =>
        mSet idFreq omenId (mGetD idFreq omenId 0 + p.2 ^ m.weightExponent)) idFreq) []

/-- The per-category raw score of `predictWeightedText`: the fixed-weight
(0.1 / 0.9) combination of the smoothed log prior and the TF-IDF-weighted log
likelihood.  The source's early `return` when
`context.omenFrequencies[oracleId]` is undefined zeroes every per-term
contribution, hence the outer `match`. -/
noncomputable def weightedCategoryScore (m : Model) (idFreq : List (Nat × ℝ))
    (oracleId : Nat) : ℝ :=
  let docsInCategory := m.divinerDocCount.getD oracleId 0
  let priorScore := Real.log (((docsInCategory : ℝ) + 0.5) /
    ((m.totalDocuments : ℝ) + 0.5 * (m.divinerGroups.length : ℝ)))
  let likelihoodScore : ℝ :=
    match m.omenFrequencies.get? oracleId with
    | none => 0
    | some omenFreq =>
      (idFreq.map fun p =>
        let df := m.omenDocFreq.getD p.1 0
        let idf := Real.log (((m.totalDocuments : ℝ) + 1) / ((df : ℝ) + 1))
        let tfidf := p.2 * idf
        let freq := mGetD omenFreq p.1 0
        let totalOmens := m.omenCount.getD oracleId 0
        let pOmen := ((freq : ℝ) + 0.5) / ((totalOmens : ℝ) + 0.5 * (m.omens.length : ℝ))
        tfidf * Real.log pOmen).sum
  priorScore * 0.1 + likelihoodScore * 0.9

/-- The raw (stem, score) pairs of `predictWeightedText`: categories with at
least one training document, in `categoryStemToId` insertion order
(`docsInCategory === 0` skips a category). -/
noncomputable def weightedScores (m : Model) (idFreq : List (Nat × ℝ)) :
    List (String × ℝ) :=
  m.categoryStemToId.filterMap fun p =>
    if m.divinerDocCount.getD p.2 0 = 0 then none
    else some (p.1, weightedCategoryScore m idFreq p.2)

/-- `predictWeightedText`: raw scores are exponentially normalized against
the running maximum and divided by the sum of the exponentials. -/
noncomputable def predictWeightedText (m : Model) (inputObj : List (String × ℝ)) :
    List (String × ℝ) :=
  if m.totalDocuments = 0 ∨ m.divinerGroups = [] then []
  else
    let idFreq := weightedIdFreq m inputObj
    let scores := weightedScores m idFreq
    match runningMax (scores.map Prod.snd) with
    | none => []
    | some maxScore =>
      let sumExp := (scores.map fun p => Real.exp (p.2 - maxScore)).sum
      scores.map fun p => (p.1, Real.exp (p.2 - maxScore) / sumExp)

/-- Concrete model used by the C1 witness: one category `"aa"` with one
training document. -/
noncomputable def modelW : Model where
  tokenizeAndStem := fun _ => []
  stem := id
  n := 3
  weightExponent := 2
  weights := defaultWeights
  capitalize := false
  excludes := []
  categoryStemToId := [("aa", 0)]
  categoryVariations := [("aa", [("aa", 1)])]
  categoryRelations := []
  divinerGroups := ["aa"]
  divinerDocCount := [1]
  omenCount := [0]
  omenFrequencies := [[]]
  omenMapping := []
  omens := []
  omenDocFreq := []
  totalDocuments := 1
  gravitationalGroups := []

/-!
### Single-text prediction

`predictText` (src/prediction.mjs lines 68 to 383): the preprocessing caches,
the seven-algorithm ensemble with per-algorithm min-max normalization, the
numerically-stable exponential transform, and the gravitational boost phase.

A JS `Map` compares keys with SameValueZero, so the STRING `"5"` and the
NUMBER `5` are different keys.  In `preprocess` the source iterates
`context.omens` — the omen strings — naming the loop variable `omenId`, so
the prior/IDF/TF-IDF caches it builds are keyed by omen STRINGS, while the
lookups in the scoring algorithms use NUMERIC omen ids.  `JSKey` keeps the
two species of keys apart exactly as the runtime does.
-/

/-- A JS `Map` key that is either a string or a number. -/
inductive JSKey where
  | str : String → JSKey
  | num : Nat → JSKey
deriving DecidableEq, BEq

/-- View a numeric-keyed map as a JS `Map` keyed by `JSKey`. -/
def asJSKeyMap {β : Type} (l : List (Nat × β)) : List (JSKey × β) :=
  l.map fun p => (JSKey.num p.1, p.2)

/-- JS array indexing with a string subscript (`arr[s]`): an array exposes
element `k` under the canonical decimal string of `k`; any other string
subscript yields `undefined`. -/
def jsArrayGetStr {β : Type} (arr : List β) (s : String) : Option β :=
  match s.toNat? with
  | some k => if Nat.repr k = s then arr.get? k else none
  | none => none

/-- `preprocess`: the per-category log-prior cache, keyed by oracle id
(`docsInCategory` is `context.divinerDocCount[oracleId]`; ids in
`categoryStemToId` index into the array, hence the 0 default). -/
noncomputable def priorCache (m : Model) : List (Nat × ℝ) :=
  m.categoryStemToId.map fun p =>
    (p.2, Real.log (((m.divinerDocCount.getD p.2 0 : ℝ) + 0.5) /
      ((m.totalDocuments : ℝ) + 0.5 * (m.divinerGroups.length : ℝ))))

/-- `preprocess`: one category's smoothed term-probability map.  The source
iterates the omen STRINGS under the name `omenId`, so `omenFreq.get(omenId)`
looks a string up in the numeric-keyed frequency map — always `undefined`,
hence `|| 0` yields 0 — and the map is keyed by the omen strings. -/
noncomputable def pOmenMapFor (m : Model) (oracleId : Nat) : List (JSKey × ℝ) :=
  let omenFreq := m.omenFrequencies.getD oracleId []
  let totalOmens := m.omenCount.getD oracleId 0
  m.omens.map fun omenStr =>
    let freq : ℝ := ((mGet (asJSKeyMap omenFreq) (JSKey.str omenStr)).map
      fun v => (v : ℝ)).getD 0
    (JSKey.str omenStr, (freq + 0.5) / ((totalOmens : ℝ) + 0.5 * (m.omens.length : ℝ)))

/-- `preprocess`: the term-probability cache over all categories. -/
noncomputable def pOmenCache (m : Model) : List (Nat × List (JSKey × ℝ)) :=
  m.categoryStemToId.map fun p => (p.2, pOmenMapFor m p.2)

/-- `preprocess`: the IDF cache, keyed by the omen strings; the document
frequency is read as `context.omenDocFreq[omenId]` with the omen STRING as
array subscript (`|| 0` on the result). -/
noncomputable def idfCache (m : Model) : List (JSKey × ℝ) :=
  m.omens.map fun omenStr =>
    let df : ℝ := ((jsArrayGetStr m.omenDocFreq omenStr).map fun v => (v : ℝ)).getD 0
    (JSKey.str omenStr, Real.log (((m.totalDocuments : ℝ) + 1) / (df + 1)))

/-- `preprocess`: one category's TF-IDF vector, keyed by the omen strings
(same string-keyed iteration; the IDF lookup hits because the IDF cache uses
the same keys, the frequency lookup misses as in `pOmenMapFor`).  JS would
produce NaN when `totalOmens` is 0; the embedding inherits Lean's `x / 0 = 0`
convention there — no theorem below depends on those values. -/
noncomputable def tfidfVectorFor (m : Model) (oracleId : Nat) : List (JSKey × ℝ) :=
  let omenFreq := m.omenFrequencies.getD oracleId []
  let totalOmens := m.omenCount.getD oracleId 0
  m.omens.map fun omenStr =>
    let tf : ℝ := (((mGet (asJSKeyMap omenFreq) (JSKey.str omenStr)).map
      fun v => (v : ℝ)).getD 0) / (totalOmens : ℝ)
    let idf := mGetD (idfCache m) (JSKey.str omenStr) 0
    (JSKey.str omenStr, tf * idf)

/-- `preprocess`: the TF-IDF cache over all categories. -/
noncomputable def categoryTFIDFCache (m : Model) : List (Nat × List (JSKey × ℝ)) :=
  m.categoryStemToId.map fun p => (p.2, tfidfVectorFor m p.2)

/-- The query term-frequency map of `predictText`: one count per occurrence
of each known term of the tokenized query. -/
def textIdFreq (m : Model) (text : String) : List (Nat × Nat) :=
  (m.chantText text).foldl (fun idFreq omen =>
    match mGet m.omenMapping omen with
    | none => idFreq
    | some omenId => mSet idFreq omenId (mGetD idFreq omenId 0 + 1)) []

/-- The names of the seven ensemble algorithms, in the source's object-key
order. -/
inductive AlgoName where
  | priorAlgo : AlgoName
  | crossEntropy : AlgoName
  | correlation : AlgoName
  | tfidfAlgo : AlgoName
  | missingOmensPenalty : AlgoName
  | cosine : AlgoName
  | jaccard : AlgoName
deriving DecidableEq

/-- `Object.keys(algorithms)`. -/
def algoNames : List AlgoName :=
  [.priorAlgo, .crossEntropy, .correlation, .tfidfAlgo,
    .missingOmensPenalty, .cosine, .jaccard]

/-- `context.weights[algoName]`. -/
def Weights.forAlgo (w : Weights) : AlgoName → ℝ
  | .priorAlgo => w.prior
  | .crossEntropy => w.crossEntropy
  | .correlation => w.correlation
  | .tfidfAlgo => w.tfidf
  | .missingOmensPenalty => w.missingOmensPenalty
  | .cosine => w.cosine
  | .jaccard => w.jaccard

/-- Ensemble algorithm `prior`: `preprocessed.prior.get(oracleId) || 0`. -/
noncomputable def algoPrior (m : Model) (oracleId : Nat) : ℝ :=
  jsOr (mGet (priorCache m) oracleId) 0

/-- Ensemble algorithm `crossEntropy`.  The probability lookup
`preprocessed.pOmen.get(oracleId).get(omenId) || 1e-10` uses the NUMERIC
omen id against the string-keyed cache, so the `1e-10` fallback always
applies; the outer `get(oracleId)` is only evaluated for ids present in the
cache, modelled with an empty-map default. -/
noncomputable def algoCrossEntropy (m : Model) (idFreq : List (Nat × Nat))
    (oracleId : Nat) : ℝ :=
  let entropy := idFreq.foldl (fun acc p =>
    let tfidf := (p.2 : ℝ) * jsOr (mGet (idfCache m) (JSKey.num p.1)) 0
    let pOmen := jsOr (mGet (mGetD (pOmenCache m) oracleId []) (JSKey.num p.1)) 1e-10
    acc - tfidf * Real.log pOmen) 0;
  -entropy

/-- Ensemble algorithm `correlation` (Pearson over the omens common to the
query vector and the category TF-IDF vector; both lookups use numeric ids
against string-keyed caches). -/
noncomputable def algoCorrelation (m : Model) (idFreq : List (Nat × Nat))
    (oracleId : Nat) : ℝ :=
  match mGet (categoryTFIDFCache m) oracleId with
  | none => 0
  | some categoryVector =>
    let inputVector : List (JSKey × ℝ) := idFreq.map fun p =>
      (JSKey.num p.1, (p.2 : ℝ) * jsOr (mGet (idfCache m) (JSKey.num p.1)) 0)
    let commonOmens := (inputVector.map Prod.fst).filter fun k => mHas categoryVector k
    if commonOmens.isEmpty then 0
    else
      let n : ℝ := (commonOmens.length : ℝ)
      let a : JSKey → ℝ := fun k => jsOr (mGet inputVector k) 0
      let b : JSKey → ℝ := fun k => jsOr (mGet categoryVector k) 0
      let sumA := (commonOmens.map a).sum
      let sumB := (commonOmens.map b).sum
      let sumAB := (commonOmens.map fun k => a k * b k).sum
      let sumAA := (commonOmens.map fun k => a k * a k).sum
      let sumBB := (commonOmens.map fun k => b k * b k).sum
      let meanA := sumA / n
      let meanB := sumB / n
      let covariance := sumAB / n - meanA * meanB
      let varianceA := sumAA / n - meanA * meanA
      let varianceB := sumBB / n - meanB * meanB
      let stdA := Real.sqrt varianceA
      let stdB := Real.sqrt varianceB
      covariance / (if stdA * stdB = 0 then 1 else stdA * stdB)

/-- Ensemble algorithm `tfidf` ("cooccurrence"): TF-IDF sum over query terms
present in the category's (numeric-keyed) frequency map. -/
noncomputable def algoTfidfSum (m : Model) (idFreq : List (Nat × Nat))
    (oracleId : Nat) : ℝ :=
  (idFreq.map fun p =>
    if mHas (m.omenFrequencies.getD oracleId []) p.1 then
      (p.2 : ℝ) * jsOr (mGet (idfCache m) (JSKey.num p.1)) 0
    else 0).sum

/-- Ensemble algorithm `missingOmensPenalty`: each category term with more
than 10 occurrences that is absent from the query subtracts its
log-relative-frequency. -/
noncomputable def algoMissingOmensPenalty (m : Model) (idFreq : List (Nat × Nat))
    (oracleId : Nat) : ℝ :=
  ((m.omenFrequencies.getD oracleId []).map fun q =>
    if !mHas idFreq q.1 && decide (10 < q.2) then
      -Real.log ((q.2 : ℝ) / ((m.omenCount.getD oracleId 0 : ℝ) + 1))
    else 0).sum

/-- Ensemble algorithm `cosine` (numeric-id lookups against the string-keyed
TF-IDF cache; `|| 1` guards the zero denominator). -/
noncomputable def algoCosine (m : Model) (idFreq : List (Nat × Nat))
    (oracleId : Nat) : ℝ :=
  match mGet (categoryTFIDFCache m) oracleId with
  | none => 0
  | some categoryVector =>
    let tfidfA : Nat × Nat → ℝ := fun p =>
      (p.2 : ℝ) * jsOr (mGet (idfCache m) (JSKey.num p.1)) 0
    let tfidfB : Nat × Nat → ℝ := fun p =>
      jsOr (mGet categoryVector (JSKey.num p.1)) 0
    let dotProduct := (idFreq.map fun p => tfidfA p * tfidfB p).sum
    let normA := (idFreq.map fun p => tfidfA p ^ 2).sum
    let normB := (idFreq.map fun p => tfidfB p ^ 2).sum
    dotProduct / (if Real.sqrt normA * Real.sqrt normB = 0 then 1
      else Real.sqrt normA * Real.sqrt normB)

/-- Ensemble algorithm `jaccard` over the query's and the category's term-id
sets (`context.omenFrequencies[oracleId].size` assumes the id is in range,
as it is for every id the ensemble loop visits).  The division carries NO
zero guard: when the query map and the category's term table are both empty
the union size is 0 and JS computes `0 / 0 = NaN` (`none`). -/
noncomputable def algoJaccard (m : Model) (idFreq : List (Nat × Nat))
    (oracleId : Nat) : JSNum :=
  let freqMap := m.omenFrequencies.getD oracleId []
  let intersectionSize := ((idFreq.map Prod.fst).filter fun k => mHas freqMap k).length
  let unionSize := idFreq.length + freqMap.length - intersectionSize
  if unionSize = 0 then none
  else some ((intersectionSize : ℝ) / (unionSize : ℝ))

/-- Dispatch on the algorithm name.  The six other algorithms always produce
a number — their zero denominators are guarded (`|| 1`, `|| 1e-10`) — so only
`jaccard` can contribute NaN in exact real arithmetic. -/
noncomputable def rawAlgoScore (m : Model) (idFreq : List (Nat × Nat)) :
    AlgoName → Nat → JSNum
  | .priorAlgo, oracleId => some (algoPrior m oracleId)
  | .crossEntropy, oracleId => some (algoCrossEntropy m idFreq oracleId)
  | .correlation, oracleId => some (algoCorrelation m idFreq oracleId)
  | .tfidfAlgo, oracleId => some (algoTfidfSum m idFreq oracleId)
  | .missingOmensPenalty, oracleId => some (algoMissingOmensPenalty m idFreq oracleId)
  | .cosine, oracleId => some (algoCosine m idFreq oracleId)
  | .jaccard, oracleId => algoJaccard m idFreq oracleId

/-- First pass of `predictText`: the per-algorithm raw-score map over
categories with at least one document (a weight of 0 — `undefined` cannot
occur, the constructor assigns all seven defaults — stores a raw 0 without
running the algorithm). -/
noncomputable def rawScoresFor (m : Model) (idFreq : List (Nat × Nat))
    (name : AlgoName) : List (String × JSNum) :=
  m.categoryStemToId.filterMap fun p =>
    if m.divinerDocCount.getD p.2 0 = 0 then none
    else if m.weights.forAlgo name = 0 then some (p.1, (some 0 : JSNum))
    else some (p.1, rawAlgoScore m idFreq name p.2)

/-- JS `Math.min(a, b)`: NaN when either argument is NaN. -/
noncomputable def jsMin : JSNum → JSNum → JSNum
  | some a, some b => some (min a b)
  | _, _ => none

/-- JS `Math.max(a, b)`: NaN when either argument is NaN. -/
noncomputable def jsMax : JSNum → JSNum → JSNum
  | some a, some b => some (max a b)
  | _, _ => none

/-- `Math.min(...values)` over the spread raw-score array: a single NaN value
makes the whole minimum NaN.  The outer `none` is the empty spread, never
consulted — the stats are only read while iterating a non-empty category
list. -/
noncomputable def jsMinList (l : List JSNum) : Option JSNum :=
  l.foldl (fun acc x =>
    match acc with
    | none => some x
    | some mn => some (jsMin mn x)) none

/-- `Math.max(...values)` over the spread raw-score array. -/
noncomputable def jsMaxList (l : List JSNum) : Option JSNum :=
  l.foldl (fun acc x =>
    match acc with
    | none => some x
    | some mx => some (jsMax mx x)) none

/-- `algoStats[name].min` (the `some 0` default is never read: the stats are
only consulted while iterating a non-empty category list). -/
noncomputable def algoMin (m : Model) (idFreq : List (Nat × Nat))
    (name : AlgoName) : JSNum :=
  (jsMinList ((rawScoresFor m idFreq name).map Prod.snd)).getD (some 0)

/-- `algoStats[name].max`. -/
noncomputable def algoMax (m : Model) (idFreq : List (Nat × Nat))
    (name : AlgoName) : JSNum :=
  (jsMaxList ((rawScoresFor m idFreq name).map Prod.snd)).getD (some 0)

/-- Second pass of `predictText`: one algorithm's contribution to a
category's total — min-max normalization to `[-1, 1]` times the algorithm's
weight; a weight of 0 contributes nothing.  The source's `max !== min` test
is JS strict inequality, which HOLDS whenever either statistic is NaN
(`NaN !== x` is always true), so a NaN statistic sends every category into
the normalization branch, where the arithmetic on it yields NaN; with real
statistics the branch is taken exactly when they differ. -/
noncomputable def normalizedAlgoTerm (m : Model) (idFreq : List (Nat × Nat))
    (name : AlgoName) (categoryStem : String) : JSNum :=
  if m.weights.forAlgo name = 0 then some 0
  else
    let raw := mGetD (rawScoresFor m idFreq name) categoryStem (some 0)
    let mn := algoMin m idFreq name
    let mx := algoMax m idFreq name
    let normalized : JSNum :=
      match mx, mn with
      | some b, some a =>
        if b = a then some 0
        else
          match raw with
          | some r => some (2 * (r - a) / (b - a) - 1)
          | none => none
      | _, _ => none
    jmul normalized (some (m.weights.forAlgo name))

/-- The weighted ensemble totals of `predictText`, per category with at least
one document, in `categoryStemToId` insertion order (`total += ...` starts
from the number 0 and propagates NaN through the additions). -/
noncomputable def ensembleScores (m : Model) (idFreq : List (Nat × Nat)) :
    List (String × JSNum) :=
  m.categoryStemToId.filterMap fun p =>
    if m.divinerDocCount.getD p.2 0 = 0 then none
    else some (p.1, (algoNames.map fun name =>
      normalizedAlgoTerm m idFreq name p.1).foldl jadd (some 0))

/-- The running maximum of the second pass
(`let maxScore = -Infinity; ... if (total > maxScore) maxScore = total`):
`NaN > x` is false, so NaN totals never update it, and `none` stands for a
maximum still at `-Infinity`. -/
noncomputable def runningMaxScores (l : List JSNum) : Option ℝ :=
  l.foldl (fun acc x =>
    match x with
    | none => acc
    | some v =>
      match acc with
      | none => some v
      | some mx => if v > mx then some v else some mx) none

/-- `predictText` up to and including the score-descending sort: every total
is exponentially normalized against the running maximum total, with NaN
propagating (`Math.exp(NaN - maxScore) = NaN`).  When the running maximum
never left `-Infinity` no total was a number — a numeric total would have
updated it — so every score is `Math.exp(NaN - (-Infinity)) = NaN`. -/
noncomputable def predictTextBase (m : Model) (text : String) : List (String × JSNum) :=
  let idFreq := textIdFreq m text
  let scores := ensembleScores m idFreq
  match runningMaxScores (scores.map Prod.snd) with
  | none => sortJS (scores.map fun p => (p.1, (none : JSNum)))
  | some maxScore =>
    sortJS (scores.map fun p =>
      (p.1, (Option.map (fun s => Real.exp (s - maxScore)) p.2 : JSNum)))

/-- JS `x || d` where the map value is itself a JS number that may be NaN:
`undefined`, `0` and NaN are all falsy. -/
noncomputable def jsOrJS (x : Option JSNum) (d : JSNum) : JSNum :=
  match x with
  | none => d
  | some v =>
    match v with
    | none => d
    | some r => if r = 0 then d else some r

/-- The gravitational boost phase of `predictText` (src/prediction.mjs lines
320 to 382): activate groups from the query's stemmed unique omens and from
the top results (at most 3 samples per group), keep only the group(s) with
the single highest activation (the per-group rescaling `score = score /
topScore` assigns to a local variable and has no effect; `===` on NaN is
false), then add `weights.gravitationalGroups * activation` — with
`weights.gravitationalGroups` absent from the constructor defaults — to every
result whose category is a gravitational-group KEY, and re-sort. -/
noncomputable def gravPhase (m : Model) (omensList : List String)
    (results : List (String × JSNum)) : List (String × JSNum) :=
  let uniqueOmens := (omensList.map fun omen => m.stem omen.toLower).dedup
  let boostText := m.gravitationalGroups.foldl (fun boost g =>
    let count := (g.2.members.filter fun member => uniqueOmens.contains member).length
    if 0 < count then mSet boost g.1 (some (count : ℝ) : JSNum) else boost)
    ([] : List (String × JSNum))
  let boostAndLimits := results.foldl
    (fun (st : List (String × JSNum) × List (String × Nat)) result =>
      let categoryStem := m.stem result.1
      m.gravitationalGroups.foldl (fun st g =>
        let limit := mGetD st.2 g.1 0
        if 3 ≤ limit then st
        else if g.2.members.contains categoryStem then
          (mSet st.1 g.1 (jadd (jsOrJS (mGet st.1 g.1) (some 0)) result.2),
            mSet st.2 g.1 (limit + 1))
        else st) st) (boostText, ([] : List (String × Nat)))
  let gravitationalBoost := boostAndLimits.1
  let topScore := gravitationalBoost.foldl (fun top p =>
    match top, p.2 with
    | some t, some s => if s > t then p.2 else top
    | _, _ => top) (some (0 : ℝ) : JSNum)
  let survivors := gravitationalBoost.filter fun p =>
    match p.2, topScore with
    | some s, some t => decide (s = t)
    | _, _ => false
  let boosted := results.map fun r =>
    (r.1, survivors.foldl (fun sc p =>
      if mHas m.gravitationalGroups r.1 then
        jadd sc (jmul m.weights.gravitationalGroups p.2)
      else sc) r.2)
  sortJS boosted

/-- `predictText` for a single text (the weighted-object dispatch at the top
of the source is the other input species, embedded as
`predictWeightedText`): guard on an untrained model, score, sort, and apply
the gravitational phase unless there are no groups or the gravity weight is
not positive. -/
noncomputable def predictText (m : Model) (text : String) : List (String × JSNum) :=
  if m.totalDocuments = 0 then []
  else
    let results := predictTextBase m text
    if m.gravitationalGroups.isEmpty || decide (m.weights.gravity ≤ 0) then results
    else gravPhase m (m.chantText text) results

/-- Concrete model used by the C6 theorem: one category `"sports"`, one
gravitational group keyed `"sports"` with the member `"sports"`, default
weights (so `weights.gravity = 0.5` but `weights.gravitationalGroups` is
absent). -/
noncomputable def modelG : Model where
  tokenizeAndStem := fun _ => []
  stem := id
  n := 3
  weightExponent := 2
  weights := defaultWeights
  capitalize := false
  excludes := []
  categoryStemToId := [("sports", 0)]
  categoryVariations := [("sports", [("sports", 1)])]
  categoryRelations := []
  divinerGroups := ["sports"]
  divinerDocCount := [1]
  omenCount := [0]
  omenFrequencies := [[]]
  omenMapping := []
  omens := []
  omenDocFreq := []
  totalDocuments := 1
  gravitationalGroups := [("sports", GravGroup.mk ["sports"] 2)]

/-- Concrete model for the amended C10 witness: like `modelW` but with one
trained term, so every category's jaccard union is non-empty and the
single-text ensemble produces no NaN. -/
noncomputable def modelJ : Model :=
  { modelW with
    omens := ["tt"]
    omenMapping := [("tt", 0)]
    omenFrequencies := [[(0, 1)]]
    omenCount := [1]
    omenDocFreq := [1] }

/-!
### JS object key enumeration

A JS object built by property assignment or `Object.fromEntries` enumerates
its own string keys with array-index-like keys first, in ascending numeric
order, followed by the remaining keys in insertion order.  An array-index
key is the canonical decimal string of an integer below `2^32 - 1` (`"0"`,
or digits with no leading zero).  `Object.entries`, `Object.keys` and
`JSON.stringify` all use this order.
-/

/-- Decimal digit value of a character. -/
def charDigit? (c : Char) : Option Nat :=
  if c = '0' then some 0 else if c = '1' then some 1 else if c = '2' then some 2
  else if c = '3' then some 3 else if c = '4' then some 4 else if c = '5' then some 5
  else if c = '6' then some 6 else if c = '7' then some 7 else if c = '8' then some 8
  else if c = '9' then some 9 else none

/-- Value of a non-empty all-digit character list, `none` otherwise. -/
def digitsVal (cs : List Char) : Option Nat :=
  if cs.isEmpty then none
  else cs.foldl (fun acc c =>
    match acc, charDigit? c with
    | some v, some d => some (v * 10 + d)
    | _, _ => none) (some 0)

/-- Whether a string is an array-index property key. -/
def isArrayIndexStr (s : String) : Bool :=
  match digitsVal s.data with
  | none => false
  | some v =>
    decide (v < 4294967295) && (!(s.data.head? == some '0') || s.data.length == 1)

/-- Numeric value of an array-index key (only consulted on such keys). -/
def keyVal (s : String) : Nat :=
  (digitsVal s.data).getD 0

/-- `Object.entries` order of an object over string keys. -/
def canonObjStr {β : Type} (l : List (String × β)) : List (String × β) :=
  (l.filter fun p => isArrayIndexStr p.1).insertionSort
      (fun a b => keyVal a.1 ≤ keyVal b.1) ++
    l.filter fun p => !isArrayIndexStr p.1

/-- `Object.entries` order when every key is the canonical decimal string of
a `Nat` (as produced by serializing a numeric-keyed `Map` through
`Object.fromEntries` and re-parsing the keys with `Number`). -/
def canonObjNat {β : Type} (l : List (Nat × β)) : List (Nat × β) :=
  (l.filter fun p => decide (p.1 < 4294967295)).insertionSort
      (fun a b => a.1 ≤ b.1) ++
    l.filter fun p => !decide (p.1 < 4294967295)

/-!
### Relation graph: `Trias.related` (src/trias.mjs lines 377 to 417)
-/

/-- The co-occurrence accumulation of `related`: for each input entry, look
up the stemmed category's relation edges and add `edge_weight * input_weight`
into the `relatedScores` object for every related stem that is not literally
an own key of the input object (`inputScores.hasOwnProperty(relatedCat)`). -/
noncomputable def relatedAccum (m : Model) (inputScores : List (String × ℝ)) :
    List (String × ℝ) :=
  inputScores.foldl (fun relatedScores entry =>
    match mGet m.categoryRelations (m.stem entry.1) with
    | none => relatedScores
    | some relations =>
      relations.foldl (fun relatedScores rel =>
        if mHas inputScores rel.1 then relatedScores
        else mSet relatedScores rel.1
          (jsOr (mGet relatedScores rel.1) 0 + (rel.2 : ℝ) * entry.2)) relatedScores) []

/-- The explicit candidate list of `related`: the accumulated entries sorted
by score descending (the `found` flag is true exactly when the accumulation
object is non-empty). -/
noncomputable def relatedExplicit (m : Model) (inputScores : List (String × ℝ)) :
    List (String × ℝ) :=
  if (relatedAccum m inputScores).isEmpty then []
  else sortJS (canonObjStr (relatedAccum m inputScores))

/-- The merged candidate list of `related`: when fewer explicit candidates
than `options.amount` were found (`undefined` compares false), the weighted
prediction over the input is appended, skipping candidates whose category is
already among the explicit ones. -/
noncomputable def relatedCandidates (m : Model) (inputScores : List (String × ℝ))
    (amount : Option Nat) : List (String × ℝ) :=
  let candidates := relatedExplicit m inputScores
  let needFallback := match amount with
    | some a => decide (candidates.length < a)
    | none => false
  if needFallback then
    candidates ++ (predictWeightedText m inputScores).filter fun candidate =>
      !(candidates.any fun c => c.1 == candidate.1)
  else candidates

/-- `Trias.related`: candidates shaped through `norm`. -/
noncomputable def related (m : Model) (inputScores : List (String × ℝ))
    (options : NormOptions) : NormOutput ℝ :=
  norm options (bestVariant m) m.capitalize
    (relatedCandidates m inputScores options.amount)

/-- The default options of `related`: `{ as: 'objects', amount: 5 }`. -/
def relatedDefaults : NormOptions :=
  NormOptions.mk .asObjects (some 5) none none

/-- Concrete model used by the C7 counterexample: categories `"soccer"` and
`"news"`, trained from single-label examples only (no co-occurrence edges). -/
noncomputable def modelR : Model where
  tokenizeAndStem := fun _ => []
  stem := id
  n := 3
  weightExponent := 2
  weights := defaultWeights
  capitalize := false
  excludes := []
  categoryStemToId := [("soccer", 0), ("news", 1)]
  categoryVariations := [("soccer", [("soccer", 1)]), ("news", [("news", 1)])]
  categoryRelations := []
  divinerGroups := ["soccer", "news"]
  divinerDocCount := [1, 1]
  omenCount := [0, 0]
  omenFrequencies := [[], []]
  omenMapping := []
  omens := []
  omenDocFreq := []
  totalDocuments := 2
  gravitationalGroups := []

/-!
### Public operations, destroy, and the initialized promise

`Trias.destroy` (src/trias.mjs lines 766 to 769) resets the model state and
calls `this.initialized.ctl.reject(...)`.  A JS promise settles at most once,
so the rejection only takes effect while initialization is still pending;
once `initialized` has resolved it stays resolved.  `train`, `predict` and
`reduce` begin with `await this.initialized` (and `save` does unless forced),
which throws exactly when that promise is rejected; `related` performs no
such await at all.
-/

/-- Settlement state of the `initialized` promise. -/
inductive InitStatus where
  | pending : InitStatus
  | resolved : InitStatus
  | rejected : InitStatus
deriving DecidableEq

/-- A `Trias` instance: its model state and its `initialized` promise. -/
structure Instance where
  model : Model
  initStatus : InitStatus

/-- `Trias.reset`: clears the index (note that `categoryRelations`,
`excludes` and `gravitationalGroups` are NOT cleared by the source). -/
def resetModel (m : Model) : Model :=
  { m with
    categoryStemToId := []
    categoryVariations := []
    divinerGroups := []
    omenMapping := []
    omens := []
    divinerDocCount := []
    omenCount := []
    omenFrequencies := []
    omenDocFreq := []
    totalDocuments := 0 }

/-- `Trias.destroy`: reset, then reject `initialized` — which re-settles
nothing when the promise already resolved (or was already rejected). -/
def destroy (inst : Instance) : Instance :=
  { model := resetModel inst.model
    initStatus :=
      match inst.initStatus with
      | .pending => .rejected
      | st => st }

/-- `await this.initialized`: throws the rejection reason when the promise
was rejected.  (Awaiting a pending promise would suspend; the states the
claims exercise are settled ones.) -/
def awaitInitialized (inst : Instance) : Except String Unit :=
  match inst.initStatus with
  | .rejected => .error "Trias destroyed"
  | _ => .ok ()

/-- `Trias.train` as far as destroyed-state behavior is concerned: the very
first statement is `await this.initialized`; the index mutation that follows
is not needed by any claim here and is not modelled. -/
def trainOp (inst : Instance) : Except String Unit :=
  match awaitInitialized inst with
  | .error e => .error e
  | .ok _ => .ok ()

/-- The default options of `predict`: `{ as: 'string', amount: 1 }`. -/
def predictDefaults : NormOptions :=
  NormOptions.mk .asString (some 1) none none

/-- `Trias.predict` after its awaits: `Prediction.predictText` shaped by
`norm` with the instance's capitalize flag. -/
noncomputable def predict (m : Model) (text : String) (options : NormOptions) :
    NormOutput JSNum :=
  norm options (bestVariant m) m.capitalize (predictText m text)

/-- `Trias.predict`: awaits `initialized` (and the training promise), then
predicts from the current model state. -/
noncomputable def predictOp (inst : Instance) (text : String)
    (options : NormOptions) : Except String (NormOutput JSNum) :=
  match awaitInitialized inst with
  | .error e => .error e
  | .ok _ => .ok (predict inst.model text options)

/-- `Trias.reduce` as far as destroyed-state behavior is concerned: it
begins with `await this.initialized`; the clustering afterwards is randomized
and not needed by any claim here. -/
def reduceOp (inst : Instance) : Except String Unit :=
  match awaitInitialized inst with
  | .error e => .error e
  | .ok _ => .ok ()

/-- `Trias.save`: awaits `initialized` unless forced; guards are released and
the error rethrown (the persistence I/O itself is an external collaborator). -/
def saveOp (inst : Instance) (force : Bool) : Except String Unit :=
  if force = true then .ok ()
  else
    match awaitInitialized inst with
    | .error e => .error e
    | .ok _ => .ok ()

/-- `Trias.related`: computes directly from the current model state — the
source contains NO `await this.initialized`, so it never observes the
rejected promise. -/
noncomputable def relatedOp (inst : Instance) (input : List (String × ℝ))
    (options : NormOptions) : Except String (NormOutput ℝ) :=
  .ok (related inst.model input options)

/-!
### Serialization round trip

`Trias.toJSON` (lines 146 to 177), `Trias.fromJSON` (105 to 144) and the
field assignments of `Trias.load` (223 to 254).  Entry-array-serialized maps
(`categoryStemToId`, `omenMapping`) survive exactly; maps serialized through
`Object.fromEntries` come back in JS object enumeration order (`canonObjStr`
on string keys; `canonObjNat` on the decimal-string keys of
`omenFrequencies`, re-parsed with `Number(k)`, and `Number(Nat.repr k) = k`).
`load` restores only data fields: the constructor configuration (`n`, the
ensemble `weights`, `capitalize`, the stemmer) of the loading instance is
kept, and `weightExponent` falls back to 2 when the serialized value is
falsy.  The post-load size check that may additionally trigger a purge
depends on file-size I/O and is outside the deserialization modelled here.
-/

/-- The persisted container, restricted to the fields `fromJSON`/`load`
consume. -/
structure SerializedModel where
  categoryStemToId : List (String × Nat)
  categoryVariations : List (String × List (String × Nat))
  categoryRelations : List (String × List (String × Nat))
  excludes : List String
  divinerGroups : List String
  divinerDocCount : List Nat
  omenCount : List Nat
  omenFrequencies : List (List (Nat × Nat))
  omenMapping : List (String × Nat)
  omens : List String
  omenDocFreq : List Nat
  totalDocuments : Nat
  weightExponent : Nat
  gravitationalGroups : List (String × GravGroup)

/-- `toJSON` composed with the parse in `fromJSON`. -/
noncomputable def serializeModel (m : Model) : SerializedModel where
  categoryStemToId := m.categoryStemToId
  categoryVariations := canonObjStr (m.categoryVariations.map fun p => (p.1, canonObjStr p.2))
  categoryRelations := canonObjStr (m.categoryRelations.map fun p => (p.1, canonObjStr p.2))
  excludes := m.excludes
  divinerGroups := m.divinerGroups
  divinerDocCount := m.divinerDocCount
  omenCount := m.omenCount
  omenFrequencies := m.omenFrequencies.map canonObjNat
  omenMapping := m.omenMapping
  omens := m.omens
  omenDocFreq := m.omenDocFreq
  totalDocuments := m.totalDocuments
  weightExponent := m.weightExponent
  gravitationalGroups := canonObjStr m.gravitationalGroups

/-- The field assignments of `Trias.load` (together with the
`gravitationalGroups` restoration `fromJSON` performs on the instance):
data fields from the container, configuration from the loading instance. -/
def loadModel (fresh : Model) (s : SerializedModel) : Model :=
  { fresh with
    divinerGroups := s.divinerGroups
    categoryStemToId := s.categoryStemToId
    categoryVariations := s.categoryVariations
    categoryRelations := s.categoryRelations
    excludes := s.excludes
    omens := s.omens
    omenMapping := s.omenMapping
    omenFrequencies := s.omenFrequencies
    divinerDocCount := s.divinerDocCount
    omenCount := s.omenCount
    omenDocFreq := s.omenDocFreq
    totalDocuments := s.totalDocuments
    weightExponent := if s.weightExponent = 0 then 2 else s.weightExponent
    gravitationalGroups := s.gravitationalGroups }

/-- Concrete model for the C4 counterexample: the same state as `modelW` but
constructed with `capitalize: true` — a configuration option that `toJSON`
writes but `load` never restores. -/
noncomputable def modelA : Model :=
  { modelW with capitalize := true }

/-- The model state after a same-configuration serialization round trip: the
only observable change is that each category's term table comes back in JS
object enumeration order. -/
noncomputable def permutedTables (m : Model) : Model :=
  { m with omenFrequencies := m.omenFrequencies.map canonObjNat }

/-!
## Theorems
-/

/-- Helper for C9: `windows` and its structural recharacterization agree for
window widths of at least 1. -/
theorem windowsRec_eq_windows (i : Nat) (hi : 1 ≤ i) :
    ∀ l : List String, windowsRec i l = windows i l := by
  intro l
  induction l with
  | nil =>
    simp only [windowsRec, windows, List.length_nil]
    rw [if_neg (by omega)]
    have : 0 + 1 - i = 0 := by omega
    simp [this]
  | cons t ts ih =>
    simp only [windowsRec, windows, List.length_cons]
    by_cases h : i ≤ ts.length + 1
    · rw [if_pos h]
      have hcnt : ts.length + 1 + 1 - i = (ts.length + 1 - i) + 1 := by omega
      rw [hcnt, List.range_succ_eq_map, List.map_cons]
      simp only [List.drop_zero, List.map_map]
      refine congrArg₂ List.cons rfl ?_
      rw [ih]
      simp only [windows]
      apply List.map_congr_left
      intro j _
      simp [List.drop_succ_cons]
    · rw [if_neg h]
      have : ts.length + 1 + 1 - i = 0 := by omega
      simp [this]

/-- C9 (amended): `chant` filters out stems of length ≤ 1 and excluded stems
and then generates, for each length `1..n` in increasing order, all n-grams
of that length left-to-right over the ENTIRE filtered stem sequence — a
removed stem does not break adjacency, so an n-gram may span a removed stem. -/
theorem chant_ngrams_over_whole_filtered_sequence
    (tokenizeAndStem : String → List String) (excludes : List String)
    (n : Nat) (text : String) :
    chant tokenizeAndStem excludes n text =
      (List.range' 1 n).flatMap (fun i =>
        (windowsRec i ((tokenizeAndStem text).filter fun t =>
          !excludes.contains t && decide (1 < t.length))).map (" ".intercalate ·)) := by
  unfold chant
  rw [List.flatMap_def, List.flatMap_def]
  refine congrArg List.flatten ?_
  apply List.map_congr_left
  intro i hi
  have h1 : 1 ≤ i := (List.mem_range'_1.mp hi).1
  rw [windowsRec_eq_windows i h1]
  simp [windows, List.map_map]

/-- C9 counterexample: with stems `["aa", "xx", "bb"]` and `"xx"` excluded,
`chant` emits the bigram `"aa bb"`, which spans the removed stem `"xx"`; the
run-based description of the claim (`chantRuns`) never produces it. -/
theorem chant_emits_ngram_spanning_removed_stem :
    "aa bb" ∈ chant tokABB ["xx"] 2 "t" ∧
      chant tokABB ["xx"] 2 "t" ≠ chantRuns tokABB ["xx"] 2 "t" := by
  decide

/-- C2: the per-category trim of `purge` deletes each chosen entry from the
term table BEFORE reading its count back, so the subtraction always sees the
absent entry and subtracts 0: with target quota 2 and term table
`{0 ↦ 1, 1 ↦ 5}` (recorded total 6, trim triggered since 6 > 2 · 1.2), the
trim empties the table yet leaves the recorded total at 6, which no longer
equals the sum (0) of the remaining per-term counts. -/
theorem purge_trim_counter_not_decremented :
    applyCategoryConstraint 2 [(0, 1), (1, 5)] 6 = ([], 6) ∧
      (applyCategoryConstraint 2 [(0, 1), (1, 5)] 6).2 ≠
        tableTotal (applyCategoryConstraint 2 [(0, 1), (1, 5)] 6).1 := by
  have hcond : ((6 : Int) : ℚ) > ((2 : Nat) : ℚ) * 1.2 := by norm_num
  have heval : applyCategoryConstraint 2 [(0, 1), (1, 5)] 6 = ([], 6) := by
    rw [applyCategoryConstraint, if_pos hcond]
    norm_num [sortByCountAsc, List.insertionSort, List.orderedInsert, trimLoop,
      mDel, mGet, mGetD, List.lookup, List.filter]
    decide
  refine ⟨heval, ?_⟩
  rw [heval]
  simp [tableTotal]

/-- C3: the per-category trim pops from the END of the ASCENDING-sorted entry
array, i.e. it removes the HIGHEST-frequency retained terms first: with target
quota 4 and term table `{0 ↦ 2, 1 ↦ 3}` (recorded total 5 > 4 · 1.2), the
single removed term is term 1 with count 3, while term 0 with the strictly
lower count 2 remains — contradicting "no removed term has a strictly higher
per-category count than any term which remains". -/
theorem purge_trim_removes_highest_count_term :
    applyCategoryConstraint 4 [(0, 2), (1, 3)] 5 = ([(0, 2)], 5) ∧
      mGet [(0, 2), (1, 3)] 1 = some 3 ∧
      mGet (applyCategoryConstraint 4 [(0, 2), (1, 3)] 5).1 1 = none ∧
      mGet (applyCategoryConstraint 4 [(0, 2), (1, 3)] 5).1 0 = some 2 ∧
      (2 : Nat) < 3 := by
  have hcond : ((5 : Int) : ℚ) > ((4 : Nat) : ℚ) * 1.2 := by norm_num
  have heval : applyCategoryConstraint 4 [(0, 2), (1, 3)] 5 = ([(0, 2)], 5) := by
    rw [applyCategoryConstraint, if_pos hcond]
    norm_num [sortByCountAsc, List.insertionSort, List.orderedInsert, trimLoop,
      mDel, mGet, mGetD, List.lookup, List.filter]
    decide
  rw [heval]
  refine ⟨rfl, by decide, by decide, by decide, by decide⟩

/-- Helper for C5: the imperative break-loop computes the declarative first
hit over the scanned index range. -/
theorem cutoffScan_eq_find (cond : Nat → Bool) (limit : Nat) :
    ∀ fuel i, cutoffScan cond limit i fuel =
      match (List.range' i fuel).find? cond with
      | some j => j + 1
      | none => limit := by
  intro fuel
  induction fuel with
  | zero => intro i; simp [cutoffScan]
  | succ fuel ih =>
    intro i
    rw [List.range'_succ]
    by_cases h : cond i
    · simp [cutoffScan, h, List.find?]
    · simp only [cutoffScan, h, if_false, List.find?, Bool.false_eq_true]
      rw [ih]

/-- C5: with an adaptive cutoff requested (`options.limit` a nonzero count)
and a non-empty result list, the output shaping returns the prefix of the
score-descending sorted list that stops at the first scanned position `i`
(at most `limit - 1` positions are scanned, and never past the end) where
`results[i].score - results[i+1].score > 0.15 * results[i].score` or
`results[i+1].score < 0.8 * results[0].score`, keeping `limit` elements when
no scanned position fires; the returned list always keeps at least one
result. -/
theorem norm_adaptive_cutoff (options : NormOptions) (bv : String → String)
    (capD : Bool) (results : List (String × ℚ)) (limit : Nat)
    (hres : results ≠ []) (hlim : options.limit = some limit) (hl0 : limit ≠ 0) :
    normShaped options bv capD results =
      (preppedSorted options bv capD results).take
        (max 1 (cutoffDeclarative (preppedSorted options bv capD results) limit)) ∧
      normShaped options bv capD results ≠ [] := by
  have hsortlen : (preppedSorted options bv capD results).length = results.length := by
    unfold preppedSorted sortJS
    rw [(List.perm_insertionSort _ _).length_eq]
    by_cases hcap : options.capitalize.getD capD
    · simp [hcap]
    · simp [hcap]
  have htruthy : jsTruthy options.limit = true := by
    simp [jsTruthy, hlim, hl0]
  have heq : normShaped options bv capD results =
      (preppedSorted options bv capD results).take
        (max 1 (cutoffDeclarative (preppedSorted options bv capD results) limit)) := by
    unfold normShaped
    rw [if_neg (by simp [hres])]
    simp only [hlim, Option.getD_some]
    rw [if_pos (show jsTruthy (some limit) = true by simp [jsTruthy, hl0])]
    rw [cutoffScan_eq_find, ← List.range_eq_range']
    rfl
  refine ⟨heq, ?_⟩
  rw [heq]
  intro hnil
  rcases List.take_eq_nil_iff.mp hnil with h | h
  · omega
  · have : results.length = 0 := by rw [← hsortlen, h]; rfl
    exact hres (List.eq_nil_of_length_eq_zero this)

/-- Witness for C5 at a concrete input: two results with scores 2 and 1 and
`limit = 2`. -/
theorem norm_adaptive_cutoff_witness :
    (([("b", (1 : ℚ)), ("a", 2)] : List (String × ℚ)) ≠ [] ∧
        (NormOptions.mk .asObjects none (some 2) (some false)).limit = some 2 ∧
        (2 : Nat) ≠ 0) ∧
      (normShaped (NormOptions.mk .asObjects none (some 2) (some false)) id false
          [("b", (1 : ℚ)), ("a", 2)] =
        (preppedSorted (NormOptions.mk .asObjects none (some 2) (some false)) id false
            [("b", (1 : ℚ)), ("a", 2)]).take
          (max 1 (cutoffDeclarative
            (preppedSorted (NormOptions.mk .asObjects none (some 2) (some false)) id false
              [("b", (1 : ℚ)), ("a", 2)]) 2)) ∧
        normShaped (NormOptions.mk .asObjects none (some 2) (some false)) id false
          [("b", (1 : ℚ)), ("a", 2)] ≠ []) :=
  ⟨⟨by decide, rfl, by decide⟩,
    norm_adaptive_cutoff (NormOptions.mk .asObjects none (some 2) (some false)) id false
      [("b", (1 : ℚ)), ("a", 2)] 2 (by decide) rfl (by decide)⟩

/-- Helper: the fold underlying `runningMax`, with an already-seen maximum. -/
theorem runningMax_go (l : List ℝ) : ∀ m : ℝ,
    ∃ M, (l.foldl (fun acc x =>
        match acc with
        | none => some x
        | some m' => if x > m' then some x else some m') (some m)) = some M ∧
      (M = m ∨ M ∈ l) ∧ m ≤ M ∧ ∀ x ∈ l, x ≤ M := by
  induction l with
  | nil => intro m; exact ⟨m, rfl, Or.inl rfl, le_refl m, by simp⟩
  | cons a t ih =>
    intro m
    by_cases h : a > m
    · obtain ⟨M, hfold, hmem, hle, hub⟩ := ih a
      refine ⟨M, ?_, ?_, ?_, ?_⟩
      · simpa [h] using hfold
      · rcases hmem with rfl | hM
        · exact Or.inr (by simp)
        · exact Or.inr (by simp [hM])
      · exact le_of_lt (lt_of_lt_of_le h hle)
      · intro x hx
        rcases List.mem_cons.mp hx with rfl | hx
        · exact hle
        · exact hub x hx
    · obtain ⟨M, hfold, hmem, hle, hub⟩ := ih m
      refine ⟨M, ?_, ?_, hle, ?_⟩
      · simpa [h] using hfold
      · rcases hmem with rfl | hM
        · exact Or.inl rfl
        · exact Or.inr (by simp [hM])
      · intro x hx
        rcases List.mem_cons.mp hx with rfl | hx
        · exact le_trans (not_lt.mp h) hle
        · exact hub x hx

/-- Helper: on a non-empty list the JS running maximum is an element and an
upper bound. -/
theorem runningMax_spec (l : List ℝ) (h : l ≠ []) :
    ∃ M, runningMax l = some M ∧ M ∈ l ∧ ∀ x ∈ l, x ≤ M := by
  cases l with
  | nil => exact absurd rfl h
  | cons a t =>
    obtain ⟨M, hfold, hmem, hle, hub⟩ := runningMax_go t a
    refine ⟨M, ?_, ?_, ?_⟩
    · simpa [runningMax] using hfold
    · rcases hmem with rfl | hM
      · simp
      · simp [hM]
    · intro x hx
      rcases List.mem_cons.mp hx with rfl | hx
      · exact hle
      · exact hub x hx

/-- C1: on a model with a nonzero total document count, at least one category
and at least one category with a nonzero document count, the weighted
multi-text prediction returns a true probability distribution: every score is
positive and the scores sum to exactly 1 in real arithmetic. -/
theorem predictWeighted_probability_distribution (m : Model)
    (input : List (String × ℝ)) (h1 : m.totalDocuments ≠ 0)
    (h2 : m.divinerGroups ≠ [])
    (h3 : ∃ p ∈ m.categoryStemToId, m.divinerDocCount.getD p.2 0 ≠ 0) :
    (∀ r ∈ predictWeightedText m input, 0 < r.2) ∧
      ((predictWeightedText m input).map Prod.snd).sum = 1 := by
  obtain ⟨p, hp, hdoc⟩ := h3
  have hmem : (p.1, weightedCategoryScore m (weightedIdFreq m input) p.2) ∈
      weightedScores m (weightedIdFreq m input) :=
    List.mem_filterMap.mpr ⟨p, hp, by rw [if_neg hdoc]⟩
  have hscores_ne : weightedScores m (weightedIdFreq m input) ≠ [] := by
    intro h
    rw [h] at hmem
    exact absurd hmem (List.not_mem_nil _)
  have hmapne : (weightedScores m (weightedIdFreq m input)).map Prod.snd ≠ [] := by
    simp [hscores_ne]
  obtain ⟨M, hM, _, _⟩ := runningMax_spec _ hmapne
  have hguard : ¬ (m.totalDocuments = 0 ∨ m.divinerGroups = []) := by
    rintro (h | h)
    · exact h1 h
    · exact h2 h
  have heq : predictWeightedText m input =
      (weightedScores m (weightedIdFreq m input)).map fun q =>
        (q.1, Real.exp (q.2 - M) /
          ((weightedScores m (weightedIdFreq m input)).map fun q =>
            Real.exp (q.2 - M)).sum) := by
    unfold predictWeightedText
    rw [if_neg hguard]
    simp only [hM]
  have hSpos : 0 < ((weightedScores m (weightedIdFreq m input)).map fun q =>
      Real.exp (q.2 - M)).sum := by
    apply List.sum_pos
    · intro x hx
      obtain ⟨q, _, rfl⟩ := List.mem_map.mp hx
      exact Real.exp_pos _
    · simp [hscores_ne]
  constructor
  · intro r hr
    rw [heq] at hr
    obtain ⟨q, _, rfl⟩ := List.mem_map.mp hr
    exact div_pos (Real.exp_pos _) hSpos
  · rw [heq, List.map_map]
    have hcomp : (Prod.snd ∘ fun q : String × ℝ =>
        (q.1, Real.exp (q.2 - M) /
          ((weightedScores m (weightedIdFreq m input)).map fun q =>
            Real.exp (q.2 - M)).sum)) = fun q : String × ℝ =>
        Real.exp (q.2 - M) *
          (((weightedScores m (weightedIdFreq m input)).map fun q =>
            Real.exp (q.2 - M)).sum)⁻¹ := by
      funext q
      simp [div_eq_mul_inv]
    rw [hcomp, List.sum_map_mul_right]
    exact mul_inv_cancel₀ (ne_of_gt hSpos)

/-- Witness for C1 at the concrete model `modelW` and a one-text input. -/
theorem predictWeighted_probability_distribution_witness :
    (modelW.totalDocuments ≠ 0 ∧ modelW.divinerGroups ≠ [] ∧
        ∃ p ∈ modelW.categoryStemToId, modelW.divinerDocCount.getD p.2 0 ≠ 0) ∧
      ((∀ r ∈ predictWeightedText modelW [("t", 1)], 0 < r.2) ∧
        ((predictWeightedText modelW [("t", 1)]).map Prod.snd).sum = 1) :=
  ⟨⟨by decide, by decide, ⟨("aa", 0), by decide, by decide⟩⟩,
    predictWeighted_probability_distribution modelW [("t", 1)] (by decide) (by decide)
      ⟨("aa", 0), by decide, by decide⟩⟩

/-- Helper: the JS sort is a permutation of its input. -/
theorem sortJS_perm {α : Type} [JSNumberOps α] (l : List (String × α)) :
    (sortJS l).Perm l :=
  List.perm_insertionSort _ l

/-- Helper: on real scores the JS sort yields a score-descending list. -/
theorem sortJS_pairwise_real (l : List (String × ℝ)) :
    (sortJS l).Pairwise fun a b => b.2 ≤ a.2 := by
  have htot : IsTotal (String × ℝ) fun a b => JSNumberOps.sortKeep a.2 b.2 = true := by
    constructor
    intro a b
    show decide (b.2 ≤ a.2) = true ∨ decide (a.2 ≤ b.2) = true
    simp only [decide_eq_true_eq]
    exact le_total _ _
  have htrans : IsTrans (String × ℝ) fun a b => JSNumberOps.sortKeep a.2 b.2 = true := by
    constructor
    intro a b c hab hbc
    have hab' : b.2 ≤ a.2 := of_decide_eq_true hab
    have hbc' : c.2 ≤ b.2 := of_decide_eq_true hbc
    show decide (c.2 ≤ a.2) = true
    simp only [decide_eq_true_eq]
    exact le_trans hbc' hab'
  have hs := @List.sorted_insertionSort (String × ℝ)
    (fun a b => JSNumberOps.sortKeep a.2 b.2 = true) _ htot htrans l
  refine hs.imp ?_
  intro a b h
  exact of_decide_eq_true h

/-- C6: with a gravitational group present and a positive gravity weight, a
result category that is itself a gravitational-group key does NOT receive a
finite proportional increase: the boost multiplies the surviving group's
activation by `weights.gravitationalGroups`, a key the constructor never
defines, so the score becomes `undefined * activation = NaN` (`none`).
Concretely, on `modelG` a result list `[("sports", 1)]` comes out of the
boost phase as `[("sports", NaN)]`. -/
theorem gravitational_boost_yields_nan :
    modelG.gravitationalGroups ≠ [] ∧ 0 < modelG.weights.gravity ∧
      gravPhase modelG [] [("sports", some 1)] = [("sports", none)] := by
  refine ⟨by simp [modelG], ?_, ?_⟩
  · show (0 : ℝ) < defaultWeights.gravity
    norm_num [defaultWeights]
  · unfold gravPhase
    norm_num [modelG, defaultWeights, mSet, mHas, mGet, mGetD, jsOrJS, jadd, jmul,
      List.lookup, List.dedup, sortJS, List.insertionSort, List.orderedInsert]

/-- Helper: a key present in the result of `mSet` is the set key or a key of
the original map. -/
theorem mSet_key_cases {κ β : Type} [BEq κ] (l : List (κ × β)) (k : κ) (v : β) :
    ∀ c ∈ mSet l k v, c.1 = k ∨ c.1 ∈ l.map Prod.fst := by
  intro c hc
  unfold mSet at hc
  by_cases h : mHas l k
  · rw [if_pos h] at hc
    obtain ⟨p, hp, hpc⟩ := List.mem_map.mp hc
    right
    by_cases hbeq : (p.1 == k) = true
    · rw [if_pos hbeq] at hpc
      rw [← hpc]
      exact List.mem_map.mpr ⟨p, hp, rfl⟩
    · rw [if_neg hbeq] at hpc
      rw [← hpc]
      exact List.mem_map.mpr ⟨p, hp, rfl⟩
  · rw [if_neg h] at hc
    rcases List.mem_append.mp hc with hl | hr
    · exact Or.inr (List.mem_map.mpr ⟨c, hl, rfl⟩)
    · left
      have : c = (k, v) := by simpa using hr
      rw [this]

/-- C7 (amended): during the co-occurrence accumulation of `related`, a
candidate is skipped exactly when its stem is literally an own key of the
input object, so no accumulated candidate carries an input key; and every
returned candidate beyond the explicit ones comes from the weighted-
prediction fallback and duplicates no explicit candidate's category.  (Input
categories can still be returned: through the fallback, or when their
stemmed form differs from the input key, as the counterexample shows.) -/
theorem related_skips_input_keys_and_dedups_fallback (m : Model)
    (input : List (String × ℝ)) (amount : Option Nat) :
    (∀ c ∈ relatedAccum m input, mHas input c.1 = false) ∧
      ∀ d ∈ relatedCandidates m input amount,
        d ∈ relatedExplicit m input ∨
          (d ∈ predictWeightedText m input ∧
            ∀ c ∈ relatedExplicit m input, c.1 ≠ d.1) := by
  constructor
  · have hkeys : ∀ k ∈ (relatedAccum m input).map Prod.fst, mHas input k = false := by
      unfold relatedAccum
      refine List.foldlRecOn
        (motive := fun (acc : List (String × ℝ)) =>
          ∀ k ∈ acc.map Prod.fst, mHas input k = false)
        input _ [] (by intro k hk; exact absurd hk (by simp)) ?_
      intro acc hacc entry _
      cases hrel : mGet m.categoryRelations (m.stem entry.1) with
      | none => exact hacc
      | some relations =>
        refine List.foldlRecOn
          (motive := fun (acc : List (String × ℝ)) =>
            ∀ k ∈ acc.map Prod.fst, mHas input k = false)
          relations _ acc hacc ?_
        intro b hb rel _
        by_cases h : mHas input rel.1 = true
        · simpa [h] using hb
        · rw [if_neg (by simpa using h)]
          intro k hk
          obtain ⟨c, hc, hck⟩ := List.mem_map.mp hk
          rcases mSet_key_cases _ _ _ c hc with hkey | hkey
          · rw [← hck, hkey]
            simpa using h
          · exact hb k (hck ▸ hkey)
    intro c hc
    exact hkeys c.1 (List.mem_map.mpr ⟨c, hc, rfl⟩)
  · intro d hd
    simp only [relatedCandidates] at hd
    split at hd
    · rcases List.mem_append.mp hd with hl | hr
      · exact Or.inl hl
      · right
        obtain ⟨hmem, hfilt⟩ := List.mem_filter.mp hr
        refine ⟨hmem, ?_⟩
        intro c hc hceq
        have hany : ((relatedExplicit m input).any fun c => c.1 == d.1) = false := by
          simpa using hfilt
        have := List.any_eq_false.mp hany c hc
        apply this
        simpa using hceq
    · exact Or.inl hd

/-- C7 counterexample: on `modelR` (categories `"soccer"` and `"news"`, no
co-occurrence edges) the call `related({"soccer": 1})` falls back to the
weighted prediction, whose result list contains every trained category —
including the input category `"soccer"`, which therefore appears among the
returned results. -/
theorem related_returns_input_category :
    ∃ l, related modelR [("soccer", (1 : ℝ))] relatedDefaults = NormOutput.objOut l ∧
      "soccer" ∈ l.map Prod.fst := by
  have haccum : relatedAccum modelR [("soccer", (1 : ℝ))] = [] := by
    simp [relatedAccum, modelR, mGet]
  have hexp : relatedExplicit modelR [("soccer", (1 : ℝ))] = [] := by
    simp [relatedExplicit, haccum]
  have hfst : (weightedScores modelR (weightedIdFreq modelR [("soccer", (1 : ℝ))])).map
      Prod.fst = ["soccer", "news"] := by
    simp [weightedScores, modelR, List.filterMap]
  have hne : weightedScores modelR (weightedIdFreq modelR [("soccer", (1 : ℝ))]) ≠ [] := by
    intro h
    rw [h] at hfst
    exact absurd hfst (by simp)
  obtain ⟨M, hM, _, _⟩ := runningMax_spec
    ((weightedScores modelR (weightedIdFreq modelR [("soccer", (1 : ℝ))])).map Prod.snd)
    (by simpa using hne)
  have hpwt : predictWeightedText modelR [("soccer", (1 : ℝ))] =
      (weightedScores modelR (weightedIdFreq modelR [("soccer", (1 : ℝ))])).map fun p =>
        (p.1, Real.exp (p.2 - M) /
          ((weightedScores modelR (weightedIdFreq modelR [("soccer", (1 : ℝ))])).map fun p =>
            Real.exp (p.2 - M)).sum) := by
    unfold predictWeightedText
    rw [if_neg (by simp [modelR])]
    simp only [hM]
  have hpwtfst : (predictWeightedText modelR [("soccer", (1 : ℝ))]).map Prod.fst =
      ["soccer", "news"] := by
    rw [hpwt, List.map_map]
    exact hfst
  have hcand : relatedCandidates modelR [("soccer", (1 : ℝ))] (some 5) =
      predictWeightedText modelR [("soccer", (1 : ℝ))] := by
    simp [relatedCandidates, hexp]
  have hcandfst : (relatedCandidates modelR [("soccer", (1 : ℝ))] (some 5)).map Prod.fst =
      ["soccer", "news"] := by
    rw [hcand]
    exact hpwtfst
  have hcandne : relatedCandidates modelR [("soccer", (1 : ℝ))] (some 5) ≠ [] := by
    intro h
    rw [h] at hcandfst
    exact absurd hcandfst (by simp)
  refine ⟨normShaped relatedDefaults (bestVariant modelR) modelR.capitalize
    (relatedCandidates modelR [("soccer", (1 : ℝ))] (some 5)), rfl, ?_⟩
  unfold normShaped
  rw [if_neg (by simpa [List.isEmpty_iff] using hcandne)]
  have hlimit : jsTruthy relatedDefaults.limit = false := by
    simp [relatedDefaults, jsTruthy]
  have hamount : jsTruthy relatedDefaults.amount = true := by
    simp [relatedDefaults, jsTruthy]
  simp only [hlimit, hamount, Bool.false_eq_true, if_false, if_true]
  have hmappedfst : List.Perm ((preppedSorted relatedDefaults (bestVariant modelR)
      modelR.capitalize
      (relatedCandidates modelR [("soccer", (1 : ℝ))] (some 5))).map Prod.fst)
      ["soccer", "news"] := by
    unfold preppedSorted
    have hcap : (relatedDefaults.capitalize.getD modelR.capitalize) = false := by
      simp [relatedDefaults, modelR]
    simp only [hcap, Bool.false_eq_true, if_false]
    refine List.Perm.trans ((sortJS_perm _).map Prod.fst) ?_
    rw [List.map_map]
    have hbv : ∀ s ∈ ["soccer", "news"], bestVariant modelR s = s := by
      intro s hs
      simp only [List.mem_cons, List.not_mem_nil, or_false] at hs
      rcases hs with rfl | rfl
      · simp only [bestVariant, modelR, mGet]
        decide
      · simp only [bestVariant, modelR, mGet]
        decide
    have : (Prod.fst ∘ fun r : String × ℝ => (bestVariant modelR r.1, r.2)) =
        fun r : String × ℝ => bestVariant modelR r.1 := rfl
    rw [this]
    have : (relatedCandidates modelR [("soccer", (1 : ℝ))] (some 5)).map
        (fun r : String × ℝ => bestVariant modelR r.1) =
        ((relatedCandidates modelR [("soccer", (1 : ℝ))] (some 5)).map Prod.fst).map
          (bestVariant modelR) := by
      rw [List.map_map]
      rfl
    rw [this, hcandfst]
    simp [hbv "soccer" (by simp), hbv "news" (by simp)]
  have hlen : (preppedSorted relatedDefaults (bestVariant modelR) modelR.capitalize
      (relatedCandidates modelR [("soccer", (1 : ℝ))] (some 5))).length = 2 := by
    have := hmappedfst.length_eq
    simpa using this
  rw [List.take_of_length_le (by rw [hlen]; simp [relatedDefaults])]
  have : "soccer" ∈ (preppedSorted relatedDefaults (bestVariant modelR) modelR.capitalize
      (relatedCandidates modelR [("soccer", (1 : ℝ))] (some 5))).map Prod.fst := by
    rw [hmappedfst.mem_iff]
    simp
  exact this

/-- C8 counterexample: destroying an instance whose initialization already
resolved does not make the operations fail — the rejection cannot re-settle
the `initialized` promise, so `predict` runs normally on the cleared state
and returns the empty formatted result, and `related` (which never awaits
`initialized`) succeeds as well. -/
theorem destroyed_after_init_operations_succeed :
    (destroy (Instance.mk modelR .resolved)).initStatus = .resolved ∧
      predictOp (destroy (Instance.mk modelR .resolved)) "x" predictDefaults =
        .ok (NormOutput.strOut "") ∧
      ∀ e, relatedOp (destroy (Instance.mk modelR .resolved)) [("a", (1 : ℝ))]
        relatedDefaults ≠ .error e := by
  refine ⟨rfl, ?_, ?_⟩
  · show Except.ok (predict (resetModel modelR) "x" predictDefaults) = _
    have hempty : predictText (resetModel modelR) "x" = [] := by
      unfold predictText
      rw [if_pos]
      show (resetModel modelR).totalDocuments = 0
      rfl
    unfold predict norm
    rw [hempty]
    rfl
  · intro e
    simp [relatedOp]

/-- C8 (amended): after `destroy()`, the awaiting operations (`train`,
`predict`, `reduce`, unforced `save`) fail deterministically exactly when
initialization was still pending at the time of the destroy — the rejection
then settles `initialized` — while `related` never consults the promise and
always returns a normal result. -/
theorem destroy_pending_rejects_awaiting_operations (inst : Instance)
    (h : inst.initStatus = .pending) (text : String) (options : NormOptions)
    (input : List (String × ℝ)) :
    (destroy inst).initStatus = .rejected ∧
      trainOp (destroy inst) = .error "Trias destroyed" ∧
      predictOp (destroy inst) text options = .error "Trias destroyed" ∧
      reduceOp (destroy inst) = .error "Trias destroyed" ∧
      saveOp (destroy inst) false = .error "Trias destroyed" ∧
      ∀ e, relatedOp (destroy inst) input options ≠ .error e := by
  have hst : (destroy inst).initStatus = .rejected := by
    simp [destroy, h]
  have hawait : awaitInitialized (destroy inst) = .error "Trias destroyed" := by
    unfold awaitInitialized
    rw [hst]
  refine ⟨hst, ?_, ?_, ?_, ?_, ?_⟩
  · simp [trainOp, hawait]
  · simp [predictOp, hawait]
  · simp [reduceOp, hawait]
  · simp [saveOp, hawait]
  · intro e
    simp [relatedOp]

/-- Witness for the amended C8 at a concrete pending instance. -/
theorem destroy_pending_rejects_awaiting_operations_witness :
    ((Instance.mk modelR .pending).initStatus = .pending) ∧
      ((destroy (Instance.mk modelR .pending)).initStatus = .rejected ∧
        trainOp (destroy (Instance.mk modelR .pending)) = .error "Trias destroyed" ∧
        predictOp (destroy (Instance.mk modelR .pending)) "x" predictDefaults =
          .error "Trias destroyed" ∧
        reduceOp (destroy (Instance.mk modelR .pending)) = .error "Trias destroyed" ∧
        saveOp (destroy (Instance.mk modelR .pending)) false = .error "Trias destroyed" ∧
        ∀ e, relatedOp (destroy (Instance.mk modelR .pending)) [("a", (1 : ℝ))]
          predictDefaults ≠ .error e) :=
  ⟨rfl, destroy_pending_rejects_awaiting_operations (Instance.mk modelR .pending) rfl
    "x" predictDefaults [("a", (1 : ℝ))]⟩

/-- Helper: the single-text prediction never reads the capitalize flag. -/
theorem predictText_capitalize_irrelevant (m : Model) (c : Bool) (t : String) :
    predictText { m with capitalize := c } t = predictText m t := rfl

/-- Helper: `bestVariant` never reads the capitalize flag. -/
theorem bestVariant_capitalize_irrelevant (m : Model) (c : Bool) (s : String) :
    bestVariant { m with capitalize := c } s = bestVariant m s := rfl

/-- Helper: the body of `normalizedAlgoTerm` with the zeta-reduced
statistics match exposed (nonzero-weight case). -/
theorem normalizedAlgoTerm_eval (m : Model) (idFreq : List (Nat × Nat))
    (name : AlgoName) (stem : String) (hw : m.weights.forAlgo name ≠ 0) :
    normalizedAlgoTerm m idFreq name stem =
      jmul (match algoMax m idFreq name, algoMin m idFreq name with
        | some b, some a =>
          if b = a then some 0
          else
            match mGetD (rawScoresFor m idFreq name) stem (some 0) with
            | some r => some (2 * (r - a) / (b - a) - 1)
            | none => none
        | _, _ => none) (some (m.weights.forAlgo name)) := by
  unfold normalizedAlgoTerm
  rw [if_neg hw]

/-- Helper: a NaN maximum statistic makes the whole normalized term NaN
(`NaN !== min` holds, and the normalization arithmetic on NaN is NaN). -/
theorem normalizedAlgoTerm_none_of_nan_stat (m : Model) (idFreq : List (Nat × Nat))
    (name : AlgoName) (stem : String) (hw : m.weights.forAlgo name ≠ 0)
    (hmx : algoMax m idFreq name = none) :
    normalizedAlgoTerm m idFreq name stem = none := by
  rw [normalizedAlgoTerm_eval m idFreq name stem hw, hmx]
  rfl

/-- Helper: equal real statistics normalize every category's term of that
algorithm to 0 times the weight. -/
theorem normalizedAlgoTerm_some_of_const_stats (m : Model) (idFreq : List (Nat × Nat))
    (name : AlgoName) (stem : String) (r : ℝ)
    (hmx : algoMax m idFreq name = some r) (hmn : algoMin m idFreq name = some r) :
    ∃ w : ℝ, normalizedAlgoTerm m idFreq name stem = some w := by
  by_cases hw : m.weights.forAlgo name = 0
  · exact ⟨0, by unfold normalizedAlgoTerm; rw [if_pos hw]⟩
  · refine ⟨0 * m.weights.forAlgo name, ?_⟩
    rw [normalizedAlgoTerm_eval m idFreq name stem hw, hmx, hmn]
    show jmul (if r = r then (some 0 : JSNum)
      else match mGetD (rawScoresFor m idFreq name) stem (some 0) with
        | some x => some (2 * (x - r) / (r - r) - 1)
        | none => none) (some (m.weights.forAlgo name)) =
      some (0 * m.weights.forAlgo name)
    rw [if_pos rfl]
    rfl

/-- Helper: evaluation of the single-text prediction on `modelW` with the
query `"q"`: the query map and the category's term table are both empty, so
the unguarded jaccard union size is 0 and `0 / 0 = NaN`; the NaN statistic
poisons the category's total and the returned score is NaN. -/
theorem predictText_modelW_eval : predictText modelW "q" = [("aa", (none : JSNum))] := by
  have hidf : textIdFreq modelW "q" = [] := by decide
  have hsingle : ∀ name, Weights.forAlgo modelW.weights name ≠ 0 →
      rawScoresFor modelW [] name = [("aa", rawAlgoScore modelW [] name 0)] := by
    intro name h
    unfold rawScoresFor
    rw [show modelW.categoryStemToId = [("aa", 0)] from rfl]
    simp only [List.filterMap_cons, List.filterMap_nil]
    rw [if_neg (show ¬ modelW.divinerDocCount.getD ((("aa", 0) : String × Nat)).2 0 = 0 by
      decide), if_neg h]
  have hwp : Weights.forAlgo modelW.weights AlgoName.priorAlgo ≠ 0 := by
    show defaultWeights.prior ≠ 0
    norm_num [defaultWeights]
  have hwce : Weights.forAlgo modelW.weights AlgoName.crossEntropy ≠ 0 := by
    show defaultWeights.crossEntropy ≠ 0
    norm_num [defaultWeights]
  have hwcos : Weights.forAlgo modelW.weights AlgoName.cosine ≠ 0 := by
    show defaultWeights.cosine ≠ 0
    norm_num [defaultWeights]
  have hwj : Weights.forAlgo modelW.weights AlgoName.jaccard ≠ 0 := by
    show defaultWeights.jaccard ≠ 0
    norm_num [defaultWeights]
  have hjac : rawScoresFor modelW [] AlgoName.jaccard = [("aa", (none : JSNum))] := by
    rw [hsingle AlgoName.jaccard hwj]
    rw [show rawAlgoScore modelW [] AlgoName.jaccard 0 = (none : JSNum) from rfl]
  have hjmx : algoMax modelW [] AlgoName.jaccard = (none : JSNum) := by
    unfold algoMax
    rw [hjac]
    rfl
  have htermj : normalizedAlgoTerm modelW [] AlgoName.jaccard "aa" = none :=
    normalizedAlgoTerm_none_of_nan_stat modelW [] _ _ hwj hjmx
  obtain ⟨w1, h1⟩ := normalizedAlgoTerm_some_of_const_stats modelW []
    AlgoName.priorAlgo "aa" (algoPrior modelW 0)
    (by unfold algoMax; rw [hsingle _ hwp]; rfl)
    (by unfold algoMin; rw [hsingle _ hwp]; rfl)
  obtain ⟨w2, h2⟩ := normalizedAlgoTerm_some_of_const_stats modelW []
    AlgoName.crossEntropy "aa" (algoCrossEntropy modelW [] 0)
    (by unfold algoMax; rw [hsingle _ hwce]; rfl)
    (by unfold algoMin; rw [hsingle _ hwce]; rfl)
  obtain ⟨w6, h6⟩ := normalizedAlgoTerm_some_of_const_stats modelW []
    AlgoName.cosine "aa" (algoCosine modelW [] 0)
    (by unfold algoMax; rw [hsingle _ hwcos]; rfl)
    (by unfold algoMin; rw [hsingle _ hwcos]; rfl)
  have h3 : normalizedAlgoTerm modelW [] AlgoName.correlation "aa" = some 0 := by
    unfold normalizedAlgoTerm
    rw [if_pos (show Weights.forAlgo modelW.weights AlgoName.correlation = 0 from rfl)]
  have h4 : normalizedAlgoTerm modelW [] AlgoName.tfidfAlgo "aa" = some 0 := by
    unfold normalizedAlgoTerm
    rw [if_pos (show Weights.forAlgo modelW.weights AlgoName.tfidfAlgo = 0 from rfl)]
  have h5 : normalizedAlgoTerm modelW [] AlgoName.missingOmensPenalty "aa" = some 0 := by
    unfold normalizedAlgoTerm
    rw [if_pos (show Weights.forAlgo modelW.weights AlgoName.missingOmensPenalty = 0
      from rfl)]
  have hscores : ensembleScores modelW [] = [("aa", (none : JSNum))] := by
    unfold ensembleScores
    rw [show modelW.categoryStemToId = [("aa", 0)] from rfl]
    simp only [List.filterMap_cons, List.filterMap_nil]
    rw [if_neg (show ¬ modelW.divinerDocCount.getD ((("aa", 0) : String × Nat)).2 0 = 0 by
      decide)]
    simp only [algoNames, List.map_cons, List.map_nil, List.foldl_cons, List.foldl_nil,
      h1, h2, h3, h4, h5, h6, htermj]
    rfl
  have hbase : predictTextBase modelW "q" = [("aa", (none : JSNum))] := by
    unfold predictTextBase
    rw [hidf]
    simp only [hscores]
    rfl
  unfold predictText
  rw [if_neg (by simp [modelW])]
  rw [hbase]
  simp [modelW]

/-- C4 counterexample: serializing a model trained under `capitalize: true`
and loading it into a fresh default-configured instance changes the
prediction output — `load` restores only data fields, never the constructor
configuration, so the restored instance renders `"aa"` where the original
rendered `"Aa"` for the same query. -/
theorem roundtrip_fresh_default_changes_prediction :
    predict (loadModel modelW (serializeModel modelA)) "q" predictDefaults ≠
      predict modelA "q" predictDefaults := by
  have hload : loadModel modelW (serializeModel modelA) = modelW := rfl
  have hnorm : ∀ cap : Bool, ∀ bv : String → String, bv "aa" = "aa" →
      norm predictDefaults bv cap ([("aa", none)] : List (String × JSNum)) =
        NormOutput.strOut (if cap then "Aa" else "aa") := by
    intro cap bv hbv
    unfold norm normShaped preppedSorted
    simp only [predictDefaults, List.isEmpty_cons, Option.getD_none, hbv]
    cases cap with
    | false =>
      simp only [jsTruthy, sortJS, List.insertionSort, List.orderedInsert,
        Bool.false_eq_true, if_false, if_true]
      simp [jsTruthy]
      rw [hbv]
      decide
    | true =>
      have hcap : capFirst "aa" = "Aa" := by decide
      simp [jsTruthy, sortJS, List.insertionSort, List.orderedInsert]
      rw [hbv, hcap]
      decide
  have hbvW : bestVariant modelW "aa" = "aa" := by
    simp only [bestVariant, mGet]
    decide
  have hW : predict modelW "q" predictDefaults = NormOutput.strOut "aa" := by
    unfold predict
    rw [predictText_modelW_eval]
    have := hnorm modelW.capitalize (bestVariant modelW) hbvW
    rw [show modelW.capitalize = false from rfl] at this
    simpa using this
  have hA : predict modelA "q" predictDefaults = NormOutput.strOut "Aa" := by
    unfold predict
    have h1 : predictText modelA "q" = [("aa", (none : JSNum))] := by
      rw [show modelA = { modelW with capitalize := true } from rfl,
        predictText_capitalize_irrelevant, predictText_modelW_eval]
    rw [h1]
    have hbvA : bestVariant modelA "aa" = "aa" := by
      rw [show modelA = { modelW with capitalize := true } from rfl,
        bestVariant_capitalize_irrelevant]
      exact hbvW
    have := hnorm modelA.capitalize (bestVariant modelA) hbvA
    rw [show modelA.capitalize = true from rfl] at this
    simpa using this
  rw [hload, hW, hA]
  intro h
  injection h with h'
  exact absurd h' (by decide)

/-- Helper: the JS object enumeration order is a permutation of the entry
list. -/
theorem canonObjNat_perm {β : Type} (l : List (Nat × β)) : (canonObjNat l).Perm l := by
  unfold canonObjNat
  refine List.Perm.trans (List.Perm.append ?_ (List.Perm.refl _)) (List.filter_append_perm _ l)
  exact List.perm_insertionSort _ _

/-- Helper: lookups agree across a permutation when keys are unique. -/
theorem lookup_eq_of_perm {κ β : Type} [BEq κ] [LawfulBEq κ] {l₁ l₂ : List (κ × β)}
    (h : l₁.Perm l₂) (hnd : (l₂.map Prod.fst).Nodup) (k : κ) :
    List.lookup k l₁ = List.lookup k l₂ := by
  induction h with
  | nil => rfl
  | cons x h ih =>
    rw [List.map_cons, List.nodup_cons] at hnd
    rw [List.lookup_cons, List.lookup_cons]
    cases hik : k == x.1 with
    | true => rfl
    | false => exact ih hnd.2
  | swap x y l =>
    rw [List.map_cons, List.map_cons, List.nodup_cons, List.nodup_cons] at hnd
    have hxy : x.1 ≠ y.1 := by
      intro he
      exact hnd.1 (he ▸ List.mem_cons_self _ _)
    rw [List.lookup_cons, List.lookup_cons, List.lookup_cons, List.lookup_cons]
    cases hx : k == x.1 with
    | true =>
      cases hy : k == y.1 with
      | true =>
        exact absurd (((eq_of_beq hx).symm.trans (eq_of_beq hy))) hxy
      | false => rfl
    | false =>
      cases hy : k == y.1 with
      | true => rfl
      | false => rfl
  | trans h₁ h₂ ih₁ ih₂ =>
    exact (ih₁ ((h₂.map Prod.fst).nodup_iff.mpr hnd)).trans (ih₂ hnd)

/-- Helper: a string key never hits a numeric-keyed map. -/
theorem mGet_asJSKeyMap_str {β : Type} (l : List (Nat × β)) (s : String) :
    mGet (asJSKeyMap l) (JSKey.str s) = none := by
  induction l with
  | nil => rfl
  | cons p rest ih =>
    simp only [asJSKeyMap, List.map_cons, mGet, List.lookup_cons,
      show (JSKey.str s == JSKey.num p.1) = false from rfl]
    exact ih

/-- Helper: without array-index-like keys, JS object enumeration preserves
insertion order. -/
theorem canonObjStr_eq_self {β : Type} (l : List (String × β))
    (h : ∀ p ∈ l, isArrayIndexStr p.1 = false) : canonObjStr l = l := by
  unfold canonObjStr
  have h1 : l.filter (fun p => isArrayIndexStr p.1) = [] := by
    rw [List.filter_eq_nil_iff]
    intro p hp
    simp [h p hp]
  have h2 : l.filter (fun p => !isArrayIndexStr p.1) = l := by
    rw [List.filter_eq_self]
    intro p hp
    simp [h p hp]
  rw [h1, h2]
  rfl

/-- Helper: the per-category table of `permutedTables`. -/
theorem permutedTables_getD (m : Model) (oid : Nat) :
    (permutedTables m).omenFrequencies.getD oid [] =
      canonObjNat (m.omenFrequencies.getD oid []) := by
  simp only [permutedTables, List.getD_eq_getElem?_getD, List.getElem?_map]
  cases h : m.omenFrequencies[oid]? with
  | none => rfl
  | some t => rfl

/-- Helper: key uniqueness of a category's table, out-of-range access
included. -/
theorem table_nodup_getD (m : Model)
    (hnodup : ∀ t ∈ m.omenFrequencies, (t.map Prod.fst).Nodup) (oid : Nat) :
    ((m.omenFrequencies.getD oid []).map Prod.fst).Nodup := by
  rw [List.getD_eq_getElem?_getD]
  cases h : m.omenFrequencies[oid]? with
  | none => simp [h]
  | some t =>
    rw [Option.getD_some]
    obtain ⟨hn, rfl⟩ := List.getElem?_eq_some_iff.mp h
    exact hnodup _ (List.getElem_mem hn)

/-- Helper: lookups in a category's table are unchanged by the round trip. -/
theorem permutedTables_mGet (m : Model)
    (hnodup : ∀ t ∈ m.omenFrequencies, (t.map Prod.fst).Nodup) (oid k : Nat) :
    mGet ((permutedTables m).omenFrequencies.getD oid []) k =
      mGet (m.omenFrequencies.getD oid []) k := by
  rw [permutedTables_getD]
  exact lookup_eq_of_perm (canonObjNat_perm _) (table_nodup_getD m hnodup oid) k

/-- Helper: table sizes are unchanged by the round trip. -/
theorem permutedTables_len (m : Model) (oid : Nat) :
    ((permutedTables m).omenFrequencies.getD oid []).length =
      (m.omenFrequencies.getD oid []).length := by
  rw [permutedTables_getD]
  exact (canonObjNat_perm _).length_eq

/-- Helper: configuration and untouched index fields survive the round trip
(definitional). -/
theorem permutedTables_omens (m : Model) : (permutedTables m).omens = m.omens := rfl

/-- Helper: the per-category occurrence totals survive the round trip. -/
theorem permutedTables_omenCount (m : Model) :
    (permutedTables m).omenCount = m.omenCount := rfl

/-- Helper: the prior cache reads no term table, so it survives the round
trip definitionally. -/
theorem priorCache_permuted (m : Model) :
    priorCache (permutedTables m) = priorCache m := rfl

/-- Helper: the IDF cache reads no term table. -/
theorem idfCache_permuted (m : Model) :
    idfCache (permutedTables m) = idfCache m := rfl

/-- Helper: the term-probability cache is unchanged — its only term-table
access is the dead string-keyed lookup, which misses on both sides. -/
theorem pOmenMapFor_permuted (m : Model) (oid : Nat) :
    pOmenMapFor (permutedTables m) oid = pOmenMapFor m oid := by
  unfold pOmenMapFor
  simp only [permutedTables_omens, permutedTables_omenCount]
  apply List.map_congr_left
  intro s _
  rw [mGet_asJSKeyMap_str, mGet_asJSKeyMap_str]

/-- Helper: the term-probability cache over all categories is unchanged. -/
theorem pOmenCache_permuted (m : Model) :
    pOmenCache (permutedTables m) = pOmenCache m := by
  unfold pOmenCache
  show (permutedTables m).categoryStemToId.map _ = _
  rw [show (permutedTables m).categoryStemToId = m.categoryStemToId from rfl]
  apply List.map_congr_left
  intro p _
  rw [pOmenMapFor_permuted]

/-- Helper: a category's TF-IDF vector is unchanged (same dead lookup). -/
theorem tfidfVectorFor_permuted (m : Model) (oid : Nat) :
    tfidfVectorFor (permutedTables m) oid = tfidfVectorFor m oid := by
  unfold tfidfVectorFor
  simp only [permutedTables_omens, permutedTables_omenCount, idfCache_permuted]
  apply List.map_congr_left
  intro s _
  rw [mGet_asJSKeyMap_str, mGet_asJSKeyMap_str]

/-- Helper: the TF-IDF cache over all categories is unchanged. -/
theorem categoryTFIDFCache_permuted (m : Model) :
    categoryTFIDFCache (permutedTables m) = categoryTFIDFCache m := by
  unfold categoryTFIDFCache
  rw [show (permutedTables m).categoryStemToId = m.categoryStemToId from rfl]
  apply List.map_congr_left
  intro p _
  rw [tfidfVectorFor_permuted]

/-- Helper: the `tfidf` ensemble algorithm is unchanged. -/
theorem algoTfidfSum_permuted (m : Model)
    (hnodup : ∀ t ∈ m.omenFrequencies, (t.map Prod.fst).Nodup)
    (idFreq : List (Nat × Nat)) (oid : Nat) :
    algoTfidfSum (permutedTables m) idFreq oid = algoTfidfSum m idFreq oid := by
  unfold algoTfidfSum
  rw [idfCache_permuted]
  refine congrArg List.sum (List.map_congr_left ?_)
  intro p _
  simp only [mHas, permutedTables_mGet m hnodup]

/-- Helper: the missing-omens penalty is unchanged — a sum over a permuted
entry list. -/
theorem algoMissingOmensPenalty_permuted (m : Model)
    (idFreq : List (Nat × Nat)) (oid : Nat) :
    algoMissingOmensPenalty (permutedTables m) idFreq oid =
      algoMissingOmensPenalty m idFreq oid := by
  unfold algoMissingOmensPenalty
  simp only [permutedTables_omenCount, permutedTables_getD]
  exact ((canonObjNat_perm _).map _).sum_eq

/-- Helper: the Jaccard algorithm is unchanged — membership tests and the
table size are permutation-invariant. -/
theorem algoJaccard_permuted (m : Model)
    (hnodup : ∀ t ∈ m.omenFrequencies, (t.map Prod.fst).Nodup)
    (idFreq : List (Nat × Nat)) (oid : Nat) :
    algoJaccard (permutedTables m) idFreq oid = algoJaccard m idFreq oid := by
  unfold algoJaccard
  have hfil : (idFreq.map Prod.fst).filter
      (fun k => mHas ((permutedTables m).omenFrequencies.getD oid []) k) =
      (idFreq.map Prod.fst).filter (fun k => mHas (m.omenFrequencies.getD oid []) k) := by
    apply List.filter_congr
    intro k _
    simp only [mHas]
    rw [permutedTables_mGet m hnodup]
  simp only [hfil, permutedTables_len]

/-- Helper: every ensemble algorithm is unchanged by the round trip. -/
theorem rawAlgoScore_permuted (m : Model)
    (hnodup : ∀ t ∈ m.omenFrequencies, (t.map Prod.fst).Nodup)
    (idFreq : List (Nat × Nat)) (name : AlgoName) (oid : Nat) :
    rawAlgoScore (permutedTables m) idFreq name oid = rawAlgoScore m idFreq name oid := by
  cases name with
  | priorAlgo => rfl
  | crossEntropy =>
    refine congrArg some ?_
    show algoCrossEntropy _ _ _ = _
    unfold algoCrossEntropy
    rw [pOmenCache_permuted, idfCache_permuted]
  | correlation =>
    refine congrArg some ?_
    show algoCorrelation _ _ _ = _
    unfold algoCorrelation
    rw [categoryTFIDFCache_permuted, idfCache_permuted]
  | tfidfAlgo => exact congrArg some (algoTfidfSum_permuted m hnodup idFreq oid)
  | missingOmensPenalty => exact congrArg some (algoMissingOmensPenalty_permuted m idFreq oid)
  | cosine =>
    refine congrArg some ?_
    show algoCosine _ _ _ = _
    unfold algoCosine
    rw [categoryTFIDFCache_permuted, idfCache_permuted]
  | jaccard => exact algoJaccard_permuted m hnodup idFreq oid

/-- Helper: the per-algorithm raw-score maps are unchanged. -/
theorem rawScoresFor_permuted (m : Model)
    (hnodup : ∀ t ∈ m.omenFrequencies, (t.map Prod.fst).Nodup)
    (idFreq : List (Nat × Nat)) (name : AlgoName) :
    rawScoresFor (permutedTables m) idFreq name = rawScoresFor m idFreq name := by
  unfold rawScoresFor
  rw [show (permutedTables m).categoryStemToId = m.categoryStemToId from rfl]
  apply List.filterMap_congr
  intro p _
  rw [show (permutedTables m).divinerDocCount = m.divinerDocCount from rfl,
    show (permutedTables m).weights = m.weights from rfl,
    rawAlgoScore_permuted m hnodup idFreq name p.2]

/-- Helper: the per-algorithm normalization statistics are unchanged. -/
theorem algoMin_permuted (m : Model)
    (hnodup : ∀ t ∈ m.omenFrequencies, (t.map Prod.fst).Nodup)
    (idFreq : List (Nat × Nat)) (name : AlgoName) :
    algoMin (permutedTables m) idFreq name = algoMin m idFreq name := by
  unfold algoMin
  rw [rawScoresFor_permuted m hnodup]

/-- Helper: the per-algorithm maximum statistic is unchanged. -/
theorem algoMax_permuted (m : Model)
    (hnodup : ∀ t ∈ m.omenFrequencies, (t.map Prod.fst).Nodup)
    (idFreq : List (Nat × Nat)) (name : AlgoName) :
    algoMax (permutedTables m) idFreq name = algoMax m idFreq name := by
  unfold algoMax
  rw [rawScoresFor_permuted m hnodup]

/-- Helper: each normalized weighted ensemble term is unchanged. -/
theorem normalizedAlgoTerm_permuted (m : Model)
    (hnodup : ∀ t ∈ m.omenFrequencies, (t.map Prod.fst).Nodup)
    (idFreq : List (Nat × Nat)) (name : AlgoName) (categoryStem : String) :
    normalizedAlgoTerm (permutedTables m) idFreq name categoryStem =
      normalizedAlgoTerm m idFreq name categoryStem := by
  unfold normalizedAlgoTerm
  rw [show (permutedTables m).weights = m.weights from rfl,
    rawScoresFor_permuted m hnodup, algoMin_permuted m hnodup, algoMax_permuted m hnodup]

/-- Helper: the weighted ensemble totals are unchanged. -/
theorem ensembleScores_permuted (m : Model)
    (hnodup : ∀ t ∈ m.omenFrequencies, (t.map Prod.fst).Nodup)
    (idFreq : List (Nat × Nat)) :
    ensembleScores (permutedTables m) idFreq = ensembleScores m idFreq := by
  unfold ensembleScores
  rw [show (permutedTables m).categoryStemToId = m.categoryStemToId from rfl]
  apply List.filterMap_congr
  intro p _
  rw [show (permutedTables m).divinerDocCount = m.divinerDocCount from rfl]
  have : (algoNames.map fun name => normalizedAlgoTerm (permutedTables m) idFreq name p.1) =
      algoNames.map fun name => normalizedAlgoTerm m idFreq name p.1 :=
    List.map_congr_left fun name _ => normalizedAlgoTerm_permuted m hnodup idFreq name p.1
  rw [this]

/-- Helper: the single-text prediction is unchanged by the round trip. -/
theorem predictText_permuted (m : Model)
    (hnodup : ∀ t ∈ m.omenFrequencies, (t.map Prod.fst).Nodup) (t : String) :
    predictText (permutedTables m) t = predictText m t := by
  have hbase : predictTextBase (permutedTables m) t = predictTextBase m t := by
    unfold predictTextBase
    rw [show textIdFreq (permutedTables m) t = textIdFreq m t from rfl]
    simp only [ensembleScores_permuted m hnodup]
  unfold predictText
  rw [show (permutedTables m).totalDocuments = m.totalDocuments from rfl, hbase,
    show (permutedTables m).gravitationalGroups = m.gravitationalGroups from rfl,
    show (permutedTables m).weights = m.weights from rfl,
    show Model.chantText (permutedTables m) t = Model.chantText m t from rfl,
    show gravPhase (permutedTables m) = gravPhase m from rfl]

/-- Helper: the weighted per-category score is unchanged (table lookups agree
across the permutation). -/
theorem weightedCategoryScore_permuted (m : Model)
    (hnodup : ∀ t ∈ m.omenFrequencies, (t.map Prod.fst).Nodup)
    (idFreq : List (Nat × ℝ)) (oid : Nat) :
    weightedCategoryScore (permutedTables m) idFreq oid =
      weightedCategoryScore m idFreq oid := by
  unfold weightedCategoryScore
  rw [show (permutedTables m).divinerDocCount = m.divinerDocCount from rfl,
    show (permutedTables m).totalDocuments = m.totalDocuments from rfl,
    show (permutedTables m).divinerGroups = m.divinerGroups from rfl,
    show (permutedTables m).omens = m.omens from rfl,
    show (permutedTables m).omenDocFreq = m.omenDocFreq from rfl,
    show (permutedTables m).omenCount = m.omenCount from rfl]
  have hget : (permutedTables m).omenFrequencies.get? oid =
      (m.omenFrequencies.get? oid).map canonObjNat := by
    simp [permutedTables]
  rw [hget]
  cases h : m.omenFrequencies.get? oid with
  | none => rfl
  | some tb =>
    have htbnd : (tb.map Prod.fst).Nodup := by
      have hmem : tb ∈ m.omenFrequencies := by
        rw [List.get?_eq_getElem?] at h
        obtain ⟨hn, rfl⟩ := List.getElem?_eq_some_iff.mp h
        exact List.getElem_mem hn
      exact hnodup tb hmem
    have hpt : ∀ k : Nat, mGetD (canonObjNat tb) k 0 = mGetD tb k 0 := by
      intro k
      unfold mGetD
      rw [show mGet (canonObjNat tb) k = mGet tb k from
        lookup_eq_of_perm (canonObjNat_perm tb) htbnd k]
    simp only [Option.map_some', hpt]

/-- Helper: the weighted raw score list is unchanged by the round trip. -/
theorem weightedScores_permuted (m : Model)
    (hnodup : ∀ t ∈ m.omenFrequencies, (t.map Prod.fst).Nodup)
    (idFreq : List (Nat × ℝ)) :
    weightedScores (permutedTables m) idFreq = weightedScores m idFreq := by
  unfold weightedScores
  rw [show (permutedTables m).categoryStemToId = m.categoryStemToId from rfl]
  apply List.filterMap_congr
  intro p _
  rw [show (permutedTables m).divinerDocCount = m.divinerDocCount from rfl,
    weightedCategoryScore_permuted m hnodup idFreq p.2]

/-- Helper: the weighted multi-text prediction is unchanged by the round
trip. -/
theorem predictWeightedText_permuted (m : Model)
    (hnodup : ∀ t ∈ m.omenFrequencies, (t.map Prod.fst).Nodup)
    (inputObj : List (String × ℝ)) :
    predictWeightedText (permutedTables m) inputObj =
      predictWeightedText m inputObj := by
  unfold predictWeightedText
  rw [show (permutedTables m).totalDocuments = m.totalDocuments from rfl,
    show (permutedTables m).divinerGroups = m.divinerGroups from rfl,
    show weightedIdFreq (permutedTables m) inputObj = weightedIdFreq m inputObj
      from rfl]
  simp only [weightedScores_permuted m hnodup]

/-- C4: corrected round trip. `load` restores only data fields, so the claim
holds only when the loading instance shares the trained instance's
configuration; then every count and table survives (each category's term
table comes back reordered by JS object key enumeration but equal as a map),
and both prediction paths return exactly the same ranked results for every
query. Hypotheses: a nonzero `weightExponent` (the restore treats 0 as
absent and substitutes 2), per-table key uniqueness (training only ever
`set`s each key once per table), and no map key that parses as a JS array
index (stems and category names; an array-index key would additionally be
reordered to the front by object enumeration). -/
theorem roundtrip_same_config_preserves_model_and_predictions (m : Model)
    (hwe : m.weightExponent ≠ 0)
    (hnodup : ∀ t ∈ m.omenFrequencies, (t.map Prod.fst).Nodup)
    (hkV : ∀ p ∈ m.categoryVariations, isArrayIndexStr p.1 = false ∧
      ∀ q ∈ p.2, isArrayIndexStr q.1 = false)
    (hkR : ∀ p ∈ m.categoryRelations, isArrayIndexStr p.1 = false ∧
      ∀ q ∈ p.2, isArrayIndexStr q.1 = false)
    (hkG : ∀ p ∈ m.gravitationalGroups, isArrayIndexStr p.1 = false) :
    loadModel m (serializeModel m) = permutedTables m ∧
    (permutedTables m).categoryStemToId = m.categoryStemToId ∧
    (permutedTables m).omens = m.omens ∧
    (permutedTables m).divinerDocCount = m.divinerDocCount ∧
    (permutedTables m).omenCount = m.omenCount ∧
    (permutedTables m).totalDocuments = m.totalDocuments ∧
    (∀ oid, ((permutedTables m).omenFrequencies.getD oid []).Perm
      (m.omenFrequencies.getD oid [])) ∧
    (∀ oid k, mGet ((permutedTables m).omenFrequencies.getD oid []) k =
      mGet (m.omenFrequencies.getD oid []) k) ∧
    (∀ t, predictText (permutedTables m) t = predictText m t) ∧
    (∀ input, predictWeightedText (permutedTables m) input =
      predictWeightedText m input) := by
  have hVinner : m.categoryVariations.map (fun p => (p.1, canonObjStr p.2)) =
      m.categoryVariations := by
    conv_rhs => rw [← List.map_id m.categoryVariations]
    apply List.map_congr_left
    intro p hp
    rw [canonObjStr_eq_self p.2 fun q hq => (hkV p hp).2 q hq]
    rfl
  have hV : canonObjStr (m.categoryVariations.map fun p => (p.1, canonObjStr p.2)) =
      m.categoryVariations := by
    rw [hVinner]
    exact canonObjStr_eq_self _ fun p hp => (hkV p hp).1
  have hRinner : m.categoryRelations.map (fun p => (p.1, canonObjStr p.2)) =
      m.categoryRelations := by
    conv_rhs => rw [← List.map_id m.categoryRelations]
    apply List.map_congr_left
    intro p hp
    rw [canonObjStr_eq_self p.2 fun q hq => (hkR p hp).2 q hq]
    rfl
  have hR : canonObjStr (m.categoryRelations.map fun p => (p.1, canonObjStr p.2)) =
      m.categoryRelations := by
    rw [hRinner]
    exact canonObjStr_eq_self _ fun p hp => (hkR p hp).1
  have hG : canonObjStr m.gravitationalGroups = m.gravitationalGroups :=
    canonObjStr_eq_self _ hkG
  refine ⟨?_, rfl, rfl, rfl, rfl, rfl, ?_, ?_, ?_, ?_⟩
  · simp only [loadModel, serializeModel, permutedTables, hV, hR, hG,
      if_neg hwe]
  · intro oid
    rw [permutedTables_getD]
    exact canonObjNat_perm _
  · intro oid k
    exact permutedTables_mGet m hnodup oid k
  · intro t
    exact predictText_permuted m hnodup t
  · intro input
    exact predictWeightedText_permuted m hnodup input

/-- Witness for C4 at the concrete one-category model `modelW`. -/
theorem roundtrip_same_config_preserves_model_and_predictions_witness :
    loadModel modelW (serializeModel modelW) = permutedTables modelW ∧
    (permutedTables modelW).categoryStemToId = modelW.categoryStemToId ∧
    (permutedTables modelW).omens = modelW.omens ∧
    (permutedTables modelW).divinerDocCount = modelW.divinerDocCount ∧
    (permutedTables modelW).omenCount = modelW.omenCount ∧
    (permutedTables modelW).totalDocuments = modelW.totalDocuments ∧
    (∀ oid, ((permutedTables modelW).omenFrequencies.getD oid []).Perm
      (modelW.omenFrequencies.getD oid [])) ∧
    (∀ oid k, mGet ((permutedTables modelW).omenFrequencies.getD oid []) k =
      mGet (modelW.omenFrequencies.getD oid []) k) ∧
    (∀ t, predictText (permutedTables modelW) t = predictText modelW t) ∧
    (∀ input, predictWeightedText (permutedTables modelW) input =
      predictWeightedText modelW input) :=
  roundtrip_same_config_preserves_model_and_predictions modelW (by decide)
    (by decide) (by decide) (by decide) (by decide)

/-- Helper: a value returned by a map lookup is one of the map's values. -/
theorem lookup_value_mem {κ β : Type} [BEq κ] (l : List (κ × β)) (k : κ) (v : β)
    (h : List.lookup k l = some v) : v ∈ l.map Prod.snd := by
  induction l with
  | nil => exact absurd h (by simp)
  | cons p t ih =>
    obtain ⟨pk, pv⟩ := p
    rw [List.lookup_cons] at h
    cases hb : (k == pk) with
    | true =>
      rw [hb] at h
      simp only [cond_true, Option.some.injEq] at h
      subst h
      simp
    | false =>
      rw [hb] at h
      simp only [cond_false] at h
      simp only [List.map_cons, List.mem_cons]
      exact Or.inr (ih h)

/-- Helper: the spread maximum of NaN-free values is a number. -/
theorem jsMaxList_cons_some (t : List JSNum) :
    ∀ v : ℝ, (∀ x ∈ t, x ≠ none) →
      ∃ r : ℝ, jsMaxList ((some v : JSNum) :: t) = some (some r) := by
  induction t with
  | nil => intro v _; exact ⟨v, rfl⟩
  | cons y s ih =>
    intro v hall
    cases y with
    | none => exact absurd rfl (hall none (by simp))
    | some w =>
      obtain ⟨r, hr⟩ := ih (max v w) (fun x hx => hall x (by simp [hx]))
      exact ⟨r, hr⟩

/-- Helper: the spread minimum of NaN-free values is a number. -/
theorem jsMinList_cons_some (t : List JSNum) :
    ∀ v : ℝ, (∀ x ∈ t, x ≠ none) →
      ∃ r : ℝ, jsMinList ((some v : JSNum) :: t) = some (some r) := by
  induction t with
  | nil => intro v _; exact ⟨v, rfl⟩
  | cons y s ih =>
    intro v hall
    cases y with
    | none => exact absurd rfl (hall none (by simp))
    | some w =>
      obtain ⟨r, hr⟩ := ih (min v w) (fun x hx => hall x (by simp [hx]))
      exact ⟨r, hr⟩

/-- Helper: `total += term` over NaN-free terms stays a number. -/
theorem foldl_jadd_some (l : List JSNum) (hall : ∀ x ∈ l, x ≠ none) :
    ∀ s : ℝ, ∃ t : ℝ, l.foldl jadd (some s) = some t := by
  induction l with
  | nil => intro s; exact ⟨s, rfl⟩
  | cons y r ih =>
    intro s
    cases y with
    | none => exact absurd rfl (hall none (by simp))
    | some w =>
      obtain ⟨t, ht⟩ := ih (fun x hx => hall x (by simp [hx])) (s + w)
      exact ⟨t, ht⟩

/-- Helper: on NaN-free totals the guarded running maximum agrees with the
real running maximum. -/
theorem runningMaxScores_map_some (l : List ℝ) :
    runningMaxScores (l.map some) = runningMax l := by
  unfold runningMaxScores runningMax
  have hgen : ∀ acc : Option ℝ, (l.map some).foldl (fun acc x =>
      match x with
      | none => acc
      | some v =>
        match acc with
        | none => some v
        | some mx => if v > mx then some v else some mx) acc =
      l.foldl (fun acc x =>
        match acc with
        | none => some x
        | some m => if x > m then some x else some m) acc := by
    induction l with
    | nil => intro acc; rfl
    | cons x t ih =>
      intro acc
      simp only [List.map_cons, List.foldl_cons]
      exact ih _
  exact hgen none

/-- Helper: inserting a lifted real-scored pair into a lifted list commutes
with the lift — the JS comparator on two numbers is the real comparator. -/
theorem orderedInsert_map_some (a : String × ℝ) :
    ∀ l : List (String × ℝ),
      List.orderedInsert (fun x y => JSNumberOps.sortKeep x.2 y.2 = true)
          ((a.1, some a.2) : String × JSNum)
          (l.map fun q => ((q.1, some q.2) : String × JSNum)) =
        (List.orderedInsert (fun x y => JSNumberOps.sortKeep x.2 y.2 = true) a l).map
          fun q => ((q.1, some q.2) : String × JSNum) := by
  intro l
  induction l with
  | nil => rfl
  | cons b t ih =>
    simp only [List.map_cons, List.orderedInsert]
    by_cases h : b.2 ≤ a.2
    · rw [if_pos (show JSNumberOps.sortKeep (((a.1, some a.2) : String × JSNum)).2
          (((b.1, some b.2) : String × JSNum)).2 = true from decide_eq_true h),
        if_pos (show JSNumberOps.sortKeep a.2 b.2 = true from decide_eq_true h)]
      simp
    · rw [if_neg (show ¬ JSNumberOps.sortKeep (((a.1, some a.2) : String × JSNum)).2
          (((b.1, some b.2) : String × JSNum)).2 = true from
            fun hc => h (of_decide_eq_true hc)),
        if_neg (show ¬ JSNumberOps.sortKeep a.2 b.2 = true from
            fun hc => h (of_decide_eq_true hc))]
      simp only [List.map_cons]
      rw [ih]

/-- Helper: the JS stable sort of a lifted real-scored list is the lift of
the real sort. -/
theorem sortJS_map_some (l : List (String × ℝ)) :
    sortJS (l.map fun q => ((q.1, some q.2) : String × JSNum)) =
      (sortJS l).map fun q => ((q.1, some q.2) : String × JSNum) := by
  unfold sortJS
  induction l with
  | nil => rfl
  | cons a t ih =>
    simp only [List.map_cons, List.insertionSort]
    rw [ih, orderedInsert_map_some]

/-- Helper: with a non-empty query map or a non-empty category table the
jaccard union is non-empty, so the division is guarded and yields a
number. -/
theorem algoJaccard_ne_none (m : Model) (idFreq : List (Nat × Nat)) (oid : Nat)
    (h : idFreq ≠ [] ∨ m.omenFrequencies.getD oid [] ≠ []) :
    algoJaccard m idFreq oid ≠ none := by
  have hle : ((idFreq.map Prod.fst).filter fun k =>
      mHas (m.omenFrequencies.getD oid []) k).length ≤ idFreq.length := by
    calc ((idFreq.map Prod.fst).filter fun k =>
          mHas (m.omenFrequencies.getD oid []) k).length
        ≤ (idFreq.map Prod.fst).length := List.length_filter_le _ _
      _ = idFreq.length := List.length_map _ _
  have hunion : idFreq.length + (m.omenFrequencies.getD oid []).length -
      ((idFreq.map Prod.fst).filter fun k =>
        mHas (m.omenFrequencies.getD oid []) k).length ≠ 0 := by
    rcases h with h | h
    · have h1 : 0 < idFreq.length := List.length_pos.mpr h
      by_cases hfm : m.omenFrequencies.getD oid [] = []
      · have hfilter : ((idFreq.map Prod.fst).filter fun k =>
            mHas (m.omenFrequencies.getD oid []) k) = [] := by
          rw [hfm]
          refine List.filter_eq_nil_iff.mpr ?_
          intro k _
          simp [mHas, mGet]
        rw [hfilter, hfm]
        simp only [List.length_nil]
        omega
      · have h2 : 0 < (m.omenFrequencies.getD oid []).length := List.length_pos.mpr hfm
        omega
    · have h2 : 0 < (m.omenFrequencies.getD oid []).length := List.length_pos.mpr h
      omega
  unfold algoJaccard
  rw [if_neg hunion]
  exact Option.some_ne_none _

/-- Helper: under the per-category non-empty-union condition every raw score
the first pass stores is a number. -/
theorem rawScoresFor_entry_some (m : Model) (idFreq : List (Nat × Nat))
    (name : AlgoName)
    (h4 : ∀ q ∈ m.categoryStemToId, m.divinerDocCount.getD q.2 0 ≠ 0 →
      idFreq ≠ [] ∨ m.omenFrequencies.getD q.2 [] ≠ []) :
    ∀ e ∈ rawScoresFor m idFreq name, e.2 ≠ none := by
  intro e he
  obtain ⟨q, hq, hqe⟩ := List.mem_filterMap.mp he
  by_cases hdoc : m.divinerDocCount.getD q.2 0 = 0
  · rw [if_pos hdoc] at hqe
    exact absurd hqe (by simp)
  · rw [if_neg hdoc] at hqe
    by_cases hw : m.weights.forAlgo name = 0
    · rw [if_pos hw] at hqe
      obtain rfl := Option.some.inj hqe
      simp
    · rw [if_neg hw] at hqe
      obtain rfl := Option.some.inj hqe
      show rawAlgoScore m idFreq name q.2 ≠ none
      cases name with
      | jaccard => exact algoJaccard_ne_none m idFreq q.2 (h4 q hq hdoc)
      | priorAlgo => exact Option.some_ne_none _
      | crossEntropy => exact Option.some_ne_none _
      | correlation => exact Option.some_ne_none _
      | tfidfAlgo => exact Option.some_ne_none _
      | missingOmensPenalty => exact Option.some_ne_none _
      | cosine => exact Option.some_ne_none _

/-- Helper: with a witness category and NaN-free raw scores the maximum
statistic is a number. -/
theorem algoMax_some (m : Model) (idFreq : List (Nat × Nat)) (name : AlgoName)
    (hall : ∀ e ∈ rawScoresFor m idFreq name, e.2 ≠ none)
    (hne : rawScoresFor m idFreq name ≠ []) :
    ∃ r : ℝ, algoMax m idFreq name = some r := by
  cases hc : rawScoresFor m idFreq name with
  | nil => exact absurd hc hne
  | cons e t =>
    obtain ⟨v, hv⟩ : ∃ v : ℝ, e.2 = some v := by
      cases he2 : e.2 with
      | none => exact absurd he2 (hall e (by simp [hc]))
      | some v => exact ⟨v, rfl⟩
    have htall : ∀ x ∈ t.map Prod.snd, x ≠ none := by
      intro x hx
      obtain ⟨f, hf, rfl⟩ := List.mem_map.mp hx
      exact hall f (by simp [hc, hf])
    obtain ⟨r, hr⟩ := jsMaxList_cons_some (t.map Prod.snd) v htall
    refine ⟨r, ?_⟩
    unfold algoMax
    rw [hc]
    simp only [List.map_cons, hv]
    rw [hr]
    rfl

/-- Helper: with a witness category and NaN-free raw scores the minimum
statistic is a number. -/
theorem algoMin_some (m : Model) (idFreq : List (Nat × Nat)) (name : AlgoName)
    (hall : ∀ e ∈ rawScoresFor m idFreq name, e.2 ≠ none)
    (hne : rawScoresFor m idFreq name ≠ []) :
    ∃ r : ℝ, algoMin m idFreq name = some r := by
  cases hc : rawScoresFor m idFreq name with
  | nil => exact absurd hc hne
  | cons e t =>
    obtain ⟨v, hv⟩ : ∃ v : ℝ, e.2 = some v := by
      cases he2 : e.2 with
      | none => exact absurd he2 (hall e (by simp [hc]))
      | some v => exact ⟨v, rfl⟩
    have htall : ∀ x ∈ t.map Prod.snd, x ≠ none := by
      intro x hx
      obtain ⟨f, hf, rfl⟩ := List.mem_map.mp hx
      exact hall f (by simp [hc, hf])
    obtain ⟨r, hr⟩ := jsMinList_cons_some (t.map Prod.snd) v htall
    refine ⟨r, ?_⟩
    unfold algoMin
    rw [hc]
    simp only [List.map_cons, hv]
    rw [hr]
    rfl

/-- Helper: under the non-empty-union condition, with at least one trained
category, every normalized ensemble term is a number. -/
theorem normalizedAlgoTerm_ne_none (m : Model) (idFreq : List (Nat × Nat))
    (name : AlgoName) (stem : String)
    (hcat : ∃ q ∈ m.categoryStemToId, m.divinerDocCount.getD q.2 0 ≠ 0)
    (h4 : ∀ q ∈ m.categoryStemToId, m.divinerDocCount.getD q.2 0 ≠ 0 →
      idFreq ≠ [] ∨ m.omenFrequencies.getD q.2 [] ≠ []) :
    normalizedAlgoTerm m idFreq name stem ≠ none := by
  by_cases hw : m.weights.forAlgo name = 0
  · unfold normalizedAlgoTerm
    rw [if_pos hw]
    simp
  · have hall := rawScoresFor_entry_some m idFreq name h4
    have hne : rawScoresFor m idFreq name ≠ [] := by
      obtain ⟨q, hq, hdoc⟩ := hcat
      have hmem : (q.1, rawAlgoScore m idFreq name q.2) ∈ rawScoresFor m idFreq name :=
        List.mem_filterMap.mpr ⟨q, hq, by rw [if_neg hdoc, if_neg hw]⟩
      intro hnil
      rw [hnil] at hmem
      exact List.not_mem_nil _ hmem
    obtain ⟨b, hb⟩ := algoMax_some m idFreq name hall hne
    obtain ⟨a, ha⟩ := algoMin_some m idFreq name hall hne
    have hraw : mGetD (rawScoresFor m idFreq name) stem (some 0) ≠ none := by
      unfold mGetD mGet
      cases hlk : List.lookup stem (rawScoresFor m idFreq name) with
      | none => simp
      | some v =>
        have hv : v ∈ (rawScoresFor m idFreq name).map Prod.snd :=
          lookup_value_mem _ _ _ hlk
        obtain ⟨e, he, rfl⟩ := List.mem_map.mp hv
        simpa using hall e he
    rw [normalizedAlgoTerm_eval m idFreq name stem hw, hb, ha]
    show jmul (if b = a then (some 0 : JSNum)
      else match mGetD (rawScoresFor m idFreq name) stem (some 0) with
        | some x => some (2 * (x - a) / (b - a) - 1)
        | none => none) (some (m.weights.forAlgo name)) ≠ none
    by_cases hba : b = a
    · rw [if_pos hba]
      exact Option.some_ne_none _
    · rw [if_neg hba]
      cases hrw : mGetD (rawScoresFor m idFreq name) stem (some 0) with
      | none => exact absurd hrw hraw
      | some x => exact Option.some_ne_none _

/-- Helper: under the non-empty-union condition every category total the
ensemble produces is a number. -/
theorem ensembleScores_entry_some (m : Model) (idFreq : List (Nat × Nat))
    (h4 : ∀ q ∈ m.categoryStemToId, m.divinerDocCount.getD q.2 0 ≠ 0 →
      idFreq ≠ [] ∨ m.omenFrequencies.getD q.2 [] ≠ []) :
    ∀ p ∈ ensembleScores m idFreq, p.2 ≠ none := by
  intro p hp
  obtain ⟨q, hq, hqe⟩ := List.mem_filterMap.mp hp
  by_cases hdoc : m.divinerDocCount.getD q.2 0 = 0
  · rw [if_pos hdoc] at hqe
    exact absurd hqe (by simp)
  · rw [if_neg hdoc] at hqe
    obtain rfl := Option.some.inj hqe
    show (algoNames.map fun name =>
      normalizedAlgoTerm m idFreq name q.1).foldl jadd (some 0) ≠ none
    obtain ⟨t, ht⟩ := foldl_jadd_some
      ((algoNames.map fun name => normalizedAlgoTerm m idFreq name q.1))
      (by
        intro x hx
        obtain ⟨name, _, rfl⟩ := List.mem_map.mp hx
        exact normalizedAlgoTerm_ne_none m idFreq name q.1 ⟨q, hq, hdoc⟩ h4) 0
    rw [ht]
    exact Option.some_ne_none _

/-- C10 (amended): in the single-text path with no gravitational boosting
(no groups, or gravity weight at most 0), at least one category with a
nonzero document count, and — the condition the original sentence misses —
no category with documents whose jaccard union is empty (the query shares a
known term, or the category's term table is non-empty), every returned score
is `exp(total - max total)`, a finite value in `(0, 1]`, and the top-ranked
category's score is exactly 1.  Without that condition the unguarded
`0 / 0 = NaN` of the jaccard algorithm poisons every score, as the
counterexample shows. -/
theorem predictText_scores_relative_without_jaccard_nan (m : Model) (text : String)
    (h1 : m.totalDocuments ≠ 0)
    (h2 : ∃ p ∈ m.categoryStemToId, m.divinerDocCount.getD p.2 0 ≠ 0)
    (h3 : m.gravitationalGroups = [] ∨ m.weights.gravity ≤ 0)
    (h4 : ∀ p ∈ m.categoryStemToId, m.divinerDocCount.getD p.2 0 ≠ 0 →
      textIdFreq m text ≠ [] ∨ m.omenFrequencies.getD p.2 [] ≠ []) :
    (∀ r ∈ predictText m text, ∃ x : ℝ, r.2 = some x ∧ 0 < x ∧ x ≤ 1) ∧
      ∃ c : String, (predictText m text).head? = some (c, some 1) := by
  obtain ⟨p, hp, hdoc⟩ := h2
  have hsome : ∀ q ∈ ensembleScores m (textIdFreq m text), q.2 ≠ none :=
    ensembleScores_entry_some m (textIdFreq m text) h4
  have hmem : (p.1, (algoNames.map fun name =>
      normalizedAlgoTerm m (textIdFreq m text) name p.1).foldl jadd (some 0)) ∈
      ensembleScores m (textIdFreq m text) :=
    List.mem_filterMap.mpr ⟨p, hp, by rw [if_neg hdoc]⟩
  have hne : ensembleScores m (textIdFreq m text) ≠ [] := by
    intro h
    rw [h] at hmem
    exact List.not_mem_nil _ hmem
  set L : List (String × ℝ) := (ensembleScores m (textIdFreq m text)).map
    (fun q => (q.1, Option.getD q.2 0)) with hL
  have hLs : ensembleScores m (textIdFreq m text) =
      L.map fun q => ((q.1, some q.2) : String × JSNum) := by
    rw [hL, List.map_map]
    conv_lhs => rw [← List.map_id (ensembleScores m (textIdFreq m text))]
    apply List.map_congr_left
    intro q hq
    obtain ⟨q1, q2⟩ := q
    cases q2 with
    | none => exact absurd rfl (hsome (q1, none) hq)
    | some v => rfl
  have hLne : L ≠ [] := by
    rw [hL]
    simp [hne]
  obtain ⟨M, hM, hMmem, hub⟩ := runningMax_spec (L.map Prod.snd) (by simp [hLne])
  have hsnd : (ensembleScores m (textIdFreq m text)).map Prod.snd =
      (L.map Prod.snd).map some := by
    conv_lhs => rw [hLs, List.map_map]
    conv_rhs => rw [List.map_map]
    rfl
  have hrm : runningMaxScores ((ensembleScores m (textIdFreq m text)).map Prod.snd) =
      some M := by
    rw [hsnd, runningMaxScores_map_some, hM]
  have hbase : predictTextBase m text =
      (sortJS (L.map fun q => (q.1, Real.exp (q.2 - M)))).map
        fun q => ((q.1, some q.2) : String × JSNum) := by
    unfold predictTextBase
    simp only [hrm]
    rw [← sortJS_map_some]
    congr 1
    conv_lhs => rw [hLs, List.map_map]
    conv_rhs => rw [List.map_map]
    rfl
  have hguard : (m.gravitationalGroups.isEmpty || decide (m.weights.gravity ≤ 0)) = true := by
    rcases h3 with h | h
    · simp [h]
    · simp [h]
  have hpt : predictText m text =
      (sortJS (L.map fun q => (q.1, Real.exp (q.2 - M)))).map
        fun q => ((q.1, some q.2) : String × JSNum) := by
    unfold predictText
    rw [if_neg h1, if_pos (by simp [hguard]), hbase]
  have hperm : (sortJS (L.map fun q => (q.1, Real.exp (q.2 - M)))).Perm
      (L.map fun q => (q.1, Real.exp (q.2 - M))) := sortJS_perm _
  have hmem_bounds : ∀ r ∈ sortJS (L.map fun q => (q.1, Real.exp (q.2 - M))),
      0 < r.2 ∧ r.2 ≤ 1 := by
    intro r hr
    have hr' := hperm.mem_iff.mp hr
    obtain ⟨q, hq, rfl⟩ := List.mem_map.mp hr'
    constructor
    · exact Real.exp_pos _
    · rw [Real.exp_le_one_iff]
      have hq2 : q.2 ∈ L.map Prod.snd := List.mem_map.mpr ⟨q, hq, rfl⟩
      have := hub _ hq2
      linarith
  constructor
  · intro r hr
    rw [hpt] at hr
    obtain ⟨q, hq, rfl⟩ := List.mem_map.mp hr
    obtain ⟨hpos, hle⟩ := hmem_bounds q hq
    exact ⟨q.2, rfl, hpos, hle⟩
  · obtain ⟨q, hq, hq2⟩ := List.mem_map.mp hMmem
    have hone : (q.1, (1 : ℝ)) ∈ L.map fun q => (q.1, Real.exp (q.2 - M)) := by
      apply List.mem_map.mpr
      refine ⟨q, hq, ?_⟩
      rw [hq2, sub_self, Real.exp_zero]
    have hone' : (q.1, (1 : ℝ)) ∈ sortJS (L.map fun q => (q.1, Real.exp (q.2 - M))) :=
      hperm.mem_iff.mpr hone
    cases hsort : sortJS (L.map fun q => (q.1, Real.exp (q.2 - M))) with
    | nil =>
      rw [hsort] at hone'
      exact absurd hone' (List.not_mem_nil _)
    | cons hd tl =>
      have hpair : (hd :: tl).Pairwise fun a b => b.2 ≤ a.2 := by
        rw [← hsort]
        exact sortJS_pairwise_real _
      have hhd_bounds : 0 < hd.2 ∧ hd.2 ≤ 1 := by
        apply hmem_bounds
        rw [hsort]
        exact List.mem_cons_self _ _
      have hhd1 : hd.2 = 1 := by
        rw [hsort] at hone'
        rcases List.mem_cons.mp hone' with h | h
        · rw [← h]
        · have h1le : (1 : ℝ) ≤ hd.2 := by
            have := (List.pairwise_cons.mp hpair).1 _ h
            simpa using this
          linarith [hhd_bounds.2]
      refine ⟨hd.1, ?_⟩
      rw [hpt, hsort]
      simp [hhd1]

/-- C10 counterexample: `modelW` — one category with one training document,
no gravitational groups — is inside the claim's guard region, yet for the
query `"q"` (no known terms; the category's term table is empty) the
unguarded jaccard division computes `0 / 0 = NaN`, the NaN statistic poisons
the normalization of every category, and the single returned score is NaN
(`none`): not a real value in `(0, 1]`, and the top-ranked score is not 1. -/
theorem predictText_returns_nan_score :
    modelW.totalDocuments ≠ 0 ∧ modelW.gravitationalGroups = [] ∧
      modelW.divinerDocCount.getD 0 0 ≠ 0 ∧
      predictText modelW "q" = [("aa", (none : JSNum))] :=
  ⟨by decide, rfl, by decide, predictText_modelW_eval⟩

/-- Witness for the amended C10 at the concrete model `modelJ` (one category
with a non-empty term table, no gravitational groups) and the query `"t"`. -/
theorem predictText_scores_relative_without_jaccard_nan_witness :
    (modelJ.totalDocuments ≠ 0 ∧
        (∃ p ∈ modelJ.categoryStemToId, modelJ.divinerDocCount.getD p.2 0 ≠ 0) ∧
        (modelJ.gravitationalGroups = [] ∨ modelJ.weights.gravity ≤ 0) ∧
        (∀ p ∈ modelJ.categoryStemToId, modelJ.divinerDocCount.getD p.2 0 ≠ 0 →
          textIdFreq modelJ "t" ≠ [] ∨ modelJ.omenFrequencies.getD p.2 [] ≠ [])) ∧
      ((∀ r ∈ predictText modelJ "t", ∃ x : ℝ, r.2 = some x ∧ 0 < x ∧ x ≤ 1) ∧
        ∃ c : String, (predictText modelJ "t").head? = some (c, some 1)) :=
  ⟨⟨by decide, ⟨("aa", 0), by decide, by decide⟩, Or.inl rfl, by decide⟩,
    predictText_scores_relative_without_jaccard_nan modelJ "t" (by decide)
      ⟨("aa", 0), by decide, by decide⟩ (Or.inl rfl) (by decide)⟩
